import Mathlib

/-
  Verification of the friday batch-run scheduler/worker.

  Shallow embedding of the Go sources:
    - internal/models/batch_run.go      (BatchRun, BatchRunRepository)
    - internal/models/batch_message.go  (BatchMessage, BatchMessageRepository)
    - internal/batch/worker.go          (Worker: scheduler loop, pacer,
                                         cancellation, resume, broadcaster)

  Conventions:
    - time is modelled in milliseconds as Nat;
    - the SQLite store is modelled as in-memory lists; each repository
      method becomes a pure function mirroring its SQL statement;
    - randomness (rand.Int63n), transport connectivity, transport send
      outcome and placeholder-resolution outcome are oracle inputs
      threaded through a TickEnv record;
    - goroutine-detached work (the `go` statements in CancelBatch) is NOT
      part of the synchronous effect of the operation; the detached queue
      re-check is modelled as a separate asynchronous step of the
      transition relation.
-/

namespace Friday

/-- Status of a batch run (batch_run.go, BatchRunStatus constants). -/
inductive RunStatus
  | queued
  | running
  | completed
  | cancelled
  | failed
deriving DecidableEq

/-- Status of a batch message (batch_message.go, BatchMessageStatus constants). -/
inductive MsgStatus
  | pending
  | sending
  | sent
  | failed
deriving DecidableEq

/-- String rendering of a run status, as stored in SQLite / JSON. -/
def RunStatus.toStr : RunStatus → String
  | .queued => "queued"
  | .running => "running"
  | .completed => "completed"
  | .cancelled => "cancelled"
  | .failed => "failed"

/-- One batch send campaign (batch_run.go, struct BatchRun). -/
structure BatchRun where
  id : Nat
  draftId : Nat
  status : RunStatus
  totalCount : Nat
  sentCount : Nat
  failedCount : Nat
  errorMessage : Option String
  startedAt : Option Nat
  completedAt : Option Nat
  createdAt : Nat
deriving DecidableEq

/-- One recipient's send attempt within a run (batch_message.go, struct BatchMessage). -/
structure BatchMessage where
  id : Nat
  batchRunId : Nat
  jid : String
  contactName : Option String
  status : MsgStatus
  templateContent : String
  sentContent : Option String
  errorMessage : Option String
  sentAt : Option Nat
  createdAt : Nat
deriving DecidableEq

/-- A message draft (draft.go, struct MessageDraft); the template source. -/
structure MessageDraft where
  id : Nat
  title : String
  content : String
deriving DecidableEq

/-- In-memory state of the run being processed (worker.go, ActiveBatchState). -/
structure ActiveBatchState where
  batchID : Nat
  draftContent : String
  currentJID : String
  currentName : String
deriving DecidableEq

/-- Compact record of a send attached to send-outcome events (worker.go, MessageInfo). -/
structure MessageInfo where
  jid : String
  contactName : String
  sentContent : String
  sentAt : String
  status : String
  error : String
deriving DecidableEq

/-- Progress event pushed to observers (worker.go, ProgressEvent). -/
structure ProgressEvent where
  type : String
  batchId : Nat
  status : String
  totalCount : Nat
  sentCount : Nat
  failedCount : Nat
  currentContact : String
  nextSendInSeconds : Nat
  lastMessage : Option MessageInfo
  errorMessage : String
deriving DecidableEq

/-- Generic row update keyed by a Nat column: the common shape of every
UPDATE ... WHERE id = ? statement in the repositories. -/
def updateBy (key : α → Nat) (k : Nat) (g : α → α) (l : List α) : List α :=
  l.map fun x => if key x = k then g x else x

/-- Generic SELECT ... ORDER BY f ASC LIMIT 1: fold choosing the element with
the least value of f, keeping the earlier element on ties. -/
def pickMin (f : α → Nat) (acc : Option α) (x : α) : Option α :=
  match acc with
  | none => some x
  | some b => some (if f x < f b then x else b)

namespace BatchRunRepo

/-- SELECT ... WHERE id = ? (BatchRunRepository.GetByID). -/
def getByID (runs : List BatchRun) (id : Nat) : Option BatchRun :=
  runs.find? fun r => r.id = id

/-- SELECT ... WHERE status = 'running' LIMIT 1 (BatchRunRepository.GetActive). -/
def getActive (runs : List BatchRun) : Option BatchRun :=
  runs.find? fun r => r.status = .running

/-- SELECT ... WHERE status = 'queued' ORDER BY created_at ASC LIMIT 1
(BatchRunRepository.GetNextQueued). -/
def getNextQueued (runs : List BatchRun) : Option BatchRun :=
  (runs.filter fun r => r.status = .queued).foldl (pickMin BatchRun.createdAt) none

/-- UPDATE ... SET status = 'running', started_at = now WHERE id = ?
(BatchRunRepository.Start). -/
def start (id : Nat) (now : Nat) : List BatchRun → List BatchRun :=
  updateBy BatchRun.id id fun r => { r with status := .running, startedAt := some now }

/-- UPDATE ... SET status = 'completed', completed_at = now WHERE id = ?
(BatchRunRepository.Complete). -/
def complete (id : Nat) (now : Nat) : List BatchRun → List BatchRun :=
  updateBy BatchRun.id id fun r => { r with status := .completed, completedAt := some now }

/-- Per-row effect of the Cancel statement: the status IN ('queued','running')
guard of the WHERE clause. -/
def cancelOne (now : Nat) (r : BatchRun) : BatchRun :=
  if r.status = .queued ∨ r.status = .running then
    { r with status := .cancelled, completedAt := some now }
  else r

/-- UPDATE ... SET status = 'cancelled', completed_at = now
WHERE id = ? AND status IN ('queued','running') (BatchRunRepository.Cancel). -/
def cancel (id : Nat) (now : Nat) : List BatchRun → List BatchRun :=
  updateBy BatchRun.id id (cancelOne now)

/-- UPDATE ... SET status = 'failed', error_message = ?, completed_at = now
WHERE id = ? (BatchRunRepository.Fail). -/
def failRun (id : Nat) (msg : String) (now : Nat) : List BatchRun → List BatchRun :=
  updateBy BatchRun.id id fun r =>
    { r with status := .failed, errorMessage := some msg, completedAt := some now }

/-- UPDATE ... SET sent_count = sent_count + 1 WHERE id = ?
(BatchRunRepository.IncrementSentCount). -/
def incSent (id : Nat) : List BatchRun → List BatchRun :=
  updateBy BatchRun.id id fun r => { r with sentCount := r.sentCount + 1 }

/-- UPDATE ... SET failed_count = failed_count + 1 WHERE id = ?
(BatchRunRepository.IncrementFailedCount). -/
def incFailed (id : Nat) : List BatchRun → List BatchRun :=
  updateBy BatchRun.id id fun r => { r with failedCount := r.failedCount + 1 }

end BatchRunRepo

namespace BatchMessageRepo

/-- SELECT ... WHERE batch_run_id = ? AND status = 'pending'
ORDER BY created_at ASC LIMIT 1 (BatchMessageRepository.GetNextPending). -/
def getNextPending (msgs : List BatchMessage) (runId : Nat) : Option BatchMessage :=
  (msgs.filter fun m => m.batchRunId = runId ∧ m.status = .pending).foldl
    (pickMin BatchMessage.createdAt) none

/-- UPDATE ... SET status = 'sending' WHERE id = ? (BatchMessageRepository.MarkSending). -/
def markSending (id : Nat) : List BatchMessage → List BatchMessage :=
  updateBy BatchMessage.id id fun m => { m with status := .sending }

/-- UPDATE ... SET status = 'sent', sent_content = ?, sent_at = now WHERE id = ?
(BatchMessageRepository.MarkSent). -/
def markSent (id : Nat) (content : String) (now : Nat) : List BatchMessage → List BatchMessage :=
  updateBy BatchMessage.id id fun m =>
    { m with status := .sent, sentContent := some content, sentAt := some now }

/-- UPDATE ... SET status = 'failed', error_message = ? WHERE id = ?
(BatchMessageRepository.MarkFailed). -/
def markFailed (id : Nat) (err : String) : List BatchMessage → List BatchMessage :=
  updateBy BatchMessage.id id fun m =>
    { m with status := .failed, errorMessage := some err }

end BatchMessageRepo

/-- Full worker-visible state: the persistent store (runs, messages, drafts)
plus the worker's in-memory fields currentRun and nextSendAt (worker.go,
struct Worker). nextId models SQLite AUTOINCREMENT freshness. -/
structure WorkerState where
  runs : List BatchRun
  msgs : List BatchMessage
  drafts : List MessageDraft
  currentRun : Option ActiveBatchState
  nextSendAt : Nat
  nextId : Nat
deriving DecidableEq

/-- Oracle inputs consumed by one tick: wall clock, the pacer's random draw,
transport connectivity, placeholder-resolution outcome, resolved text and
transport send outcome. -/
structure TickEnv where
  now : Nat
  rand : Nat
  connected : Bool
  phFail : Bool
  phErrText : String
  resolvedContent : String
  sendFail : Bool
  sendErrText : String
deriving DecidableEq

/-- Delay drawn by scheduleNextMessage: minDelay 10s plus rand.Int63n of the
5s delta, in milliseconds (worker.go, scheduleNextMessage). -/
def scheduleDelay (rand : Nat) : Nat :=
  10000 + rand % 5000

/-- worker.go scheduleNextMessage: record the absolute next-send timestamp. -/
def scheduleNext (s : WorkerState) (env : TickEnv) : WorkerState :=
  { s with nextSendAt := env.now + scheduleDelay env.rand }

/-- worker.go GetProgress: synchronous snapshot from the store plus the
in-memory countdown. Returns an error when the run does not exist. -/
def getProgress (s : WorkerState) (now : Nat) (batchID : Nat) : Except String ProgressEvent :=
  match BatchRunRepo.getByID s.runs batchID with
  | none => .error "batch not found"
  | some run =>
    let currentName : String :=
      match s.currentRun with
      | some c => if c.batchID = batchID then c.currentName else ""
      | none => ""
    let nextSendSeconds : Nat :=
      if run.status = .running then (s.nextSendAt - now) / 1000 else 0
    .ok { type := "progress", batchId := batchID, status := run.status.toStr,
          totalCount := run.totalCount, sentCount := run.sentCount,
          failedCount := run.failedCount, currentContact := currentName,
          nextSendInSeconds := nextSendSeconds, lastMessage := none,
          errorMessage := "" }

/-- worker.go broadcastProgress: the event pushed when GetProgress succeeds,
nothing when it errors. -/
def progressEvents (s : WorkerState) (now : Nat) (batchID : Nat) : List ProgressEvent :=
  match getProgress s now batchID with
  | .ok e => [e]
  | .error _ => []

/-- The error-kind event emitted when the transport is disconnected
(worker.go, processNextMessage). -/
def disconnectedEvent (batchID : Nat) : ProgressEvent :=
  { type := "error", batchId := batchID, status := "", totalCount := 0,
    sentCount := 0, failedCount := 0, currentContact := "",
    nextSendInSeconds := 0, lastMessage := none,
    errorMessage := "WhatsApp disconnected - waiting for reconnection" }

/-- The completed event (worker.go, completeBatch). -/
def completedEvent (batchID : Nat) : ProgressEvent :=
  { type := "completed", batchId := batchID, status := "completed",
    totalCount := 0, sentCount := 0, failedCount := 0, currentContact := "",
    nextSendInSeconds := 0, lastMessage := none, errorMessage := "" }

/-- The cancelled event (worker.go, CancelBatch). -/
def cancelledEvent (batchID : Nat) : ProgressEvent :=
  { type := "cancelled", batchId := batchID, status := "cancelled",
    totalCount := 0, sentCount := 0, failedCount := 0, currentContact := "",
    nextSendInSeconds := 0, lastMessage := none, errorMessage := "" }

/-- worker.go extractPhone: the prefix of a JID before the first at-sign. -/
def extractPhone (jid : String) : String :=
  jid.takeWhile fun c => c ≠ '@'

/-- Counters reported in a send-outcome event, re-read from the store after
the increment (worker.go, markMessageSent / markMessageFailed). -/
def countersOf (runs : List BatchRun) (batchID : Nat) : Nat × Nat × Nat × String :=
  match BatchRunRepo.getByID runs batchID with
  | some run => (run.totalCount, run.sentCount, run.failedCount, run.status.toStr)
  | none => (0, 0, 0, "")

/-- worker.go markMessageSent: mark the row sent, bump sent_count, build the
message_sent event from the re-read counters. -/
def markMessageSent (s : WorkerState) (batchID : Nat) (msg : BatchMessage)
    (content contactName : String) (now : Nat) : WorkerState × List ProgressEvent :=
  let msgs := BatchMessageRepo.markSent msg.id content now s.msgs
  let runs := BatchRunRepo.incSent batchID s.runs
  let c := countersOf runs batchID
  let info : MessageInfo :=
    { jid := msg.jid, contactName := contactName, sentContent := content,
      sentAt := toString now, status := "sent", error := "" }
  ({ s with msgs := msgs, runs := runs },
   [{ type := "message_sent", batchId := batchID, status := c.2.2.2,
      totalCount := c.1, sentCount := c.2.1, failedCount := c.2.2.1,
      currentContact := "", nextSendInSeconds := 0,
      lastMessage := some info, errorMessage := "" }])

/-- worker.go markMessageFailed: mark the row failed, bump failed_count, build
the message_failed event from the re-read counters. -/
def markMessageFailed (s : WorkerState) (batchID : Nat) (msg : BatchMessage)
    (err : String) (now : Nat) : WorkerState × List ProgressEvent :=
  let msgs := BatchMessageRepo.markFailed msg.id err s.msgs
  let runs := BatchRunRepo.incFailed batchID s.runs
  let c := countersOf runs batchID
  let info : MessageInfo :=
    { jid := msg.jid, contactName := msg.contactName.getD "", sentContent := "",
      sentAt := toString now, status := "failed", error := err }
  ({ s with msgs := msgs, runs := runs },
   [{ type := "message_failed", batchId := batchID, status := c.2.2.2,
      totalCount := c.1, sentCount := c.2.1, failedCount := c.2.2.1,
      currentContact := "", nextSendInSeconds := 0,
      lastMessage := some info, errorMessage := "" }])

/-- worker.go sendMessage: record the recipient in flight, mark the row
sending, broadcast a snapshot, resolve placeholders, invoke the transport,
record the outcome, and re-arm the pacer on every path. -/
def sendMessage (s : WorkerState) (state : ActiveBatchState) (msg : BatchMessage)
    (env : TickEnv) : WorkerState × List ProgressEvent :=
  let contactName :=
    match msg.contactName with
    | some n => n
    | none => extractPhone msg.jid
  let st1 : ActiveBatchState :=
    { state with currentJID := msg.jid, currentName := contactName }
  let s1 : WorkerState :=
    { s with currentRun := some st1,
             msgs := BatchMessageRepo.markSending msg.id s.msgs }
  let evs1 := progressEvents s1 env.now state.batchID
  if env.phFail then
    let r := markMessageFailed s1 state.batchID msg
      ("Failed to get placeholder values: " ++ env.phErrText) env.now
    (scheduleNext r.1 env, evs1 ++ r.2)
  else if env.sendFail then
    let r := markMessageFailed s1 state.batchID msg
      ("Send failed: " ++ env.sendErrText) env.now
    (scheduleNext r.1 env, evs1 ++ r.2)
  else
    let r := markMessageSent s1 state.batchID msg env.resolvedContent contactName env.now
    (scheduleNext r.1 env, evs1 ++ r.2)

/-- worker.go startBatch: fetch the draft (failing the run when it is gone),
persist 'running', populate ActiveBatchState, arm the pacer, broadcast. -/
def startBatch (s : WorkerState) (run : BatchRun) (env : TickEnv) :
    WorkerState × List ProgressEvent :=
  match s.drafts.find? (fun d => d.id = run.draftId) with
  | none =>
    ({ s with runs := BatchRunRepo.failRun run.id "Draft not found" env.now s.runs }, [])
  | some draft =>
    let active : ActiveBatchState :=
      { batchID := run.id, draftContent := draft.content,
        currentJID := "", currentName := "" }
    let s1 : WorkerState :=
      { s with runs := BatchRunRepo.start run.id env.now s.runs,
               currentRun := some active }
    let s2 := scheduleNext s1 env
    (s2, progressEvents s2 env.now run.id)

/-- worker.go checkQueue: when no run is active, start the oldest queued run. -/
def checkQueue (s : WorkerState) (env : TickEnv) : WorkerState × List ProgressEvent :=
  if s.currentRun.isSome then (s, [])
  else
    match BatchRunRepo.getNextQueued s.runs with
    | none => (s, [])
    | some q => startBatch s q env

/-- worker.go completeBatch: persist 'completed', clear ActiveBatchState,
broadcast, then synchronously re-check the queue. -/
def completeBatch (s : WorkerState) (batchID : Nat) (env : TickEnv) :
    WorkerState × List ProgressEvent :=
  let s1 : WorkerState :=
    { s with runs := BatchRunRepo.complete batchID env.now s.runs, currentRun := none }
  let r := checkQueue s1 env
  (r.1, completedEvent batchID :: r.2)

/-- worker.go processNextMessage: the body of one 500ms tick. -/
def processNextMessage (s : WorkerState) (env : TickEnv) :
    WorkerState × List ProgressEvent :=
  match s.currentRun with
  | none => checkQueue s env
  | some current =>
    if env.now < s.nextSendAt then
      (s, progressEvents s env.now current.batchID)
    else if ¬ env.connected then
      (s, [disconnectedEvent current.batchID])
    else
      match BatchMessageRepo.getNextPending s.msgs current.batchID with
      | none => completeBatch s current.batchID env
      | some msg => sendMessage s current msg env

/-- worker.go CancelBatch, synchronous part: clear ActiveBatchState when the
cancelled run is the active one, persist the guarded Cancel. The broadcast
and the queue re-check are launched with the go keyword as detached
goroutines and are therefore not part of this operation's control flow;
the detached re-check appears as a separate step of the transition relation. -/
def cancelBatchSync (s : WorkerState) (batchID : Nat) (now : Nat) :
    WorkerState × List ProgressEvent :=
  let cur : Option ActiveBatchState :=
    match s.currentRun with
    | some c => if c.batchID = batchID then none else some c
    | none => none
  ({ s with currentRun := cur, runs := BatchRunRepo.cancel batchID now s.runs },
   [cancelledEvent batchID])

/-- worker.go resumeIncompleteRuns: before the first tick, resume a run left
'running' in the store, else fall through to the queued-run check. -/
def resumeIncompleteRuns (s : WorkerState) (env : TickEnv) :
    WorkerState × List ProgressEvent :=
  match BatchRunRepo.getActive s.runs with
  | some active => startBatch s active env
  | none => checkQueue s env

/-- A process restart: the in-memory fields are lost (freshly constructed
Worker), then Run calls resumeIncompleteRuns before the first tick. -/
def restartResume (s : WorkerState) (env : TickEnv) :
    WorkerState × List ProgressEvent :=
  resumeIncompleteRuns { s with currentRun := none, nextSendAt := 0 } env

/-- batch_handler.go createBatch: validate the draft, create the run 'queued'
with total_count = number of recipients, bulk-create one pending message per
recipient snapshotting the draft content. -/
def createRun (s : WorkerState) (draftId : Nat) (jids : List String) (now : Nat) :
    WorkerState :=
  match s.drafts.find? (fun d => d.id = draftId) with
  | none => s
  | some draft =>
    if jids.isEmpty then s
    else
      let runId := s.nextId
      let run : BatchRun :=
        { id := runId, draftId := draftId, status := .queued,
          totalCount := jids.length, sentCount := 0, failedCount := 0,
          errorMessage := none, startedAt := none, completedAt := none,
          createdAt := now }
      let newMsgs : List BatchMessage :=
        (List.range jids.length).map fun i =>
          { id := runId + 1 + i, batchRunId := runId, jid := jids.getD i "",
            contactName := none, status := .pending,
            templateContent := draft.content, sentContent := none,
            errorMessage := none, sentAt := none, createdAt := now }
      { s with runs := s.runs ++ [run], msgs := s.msgs ++ newMsgs,
               nextId := s.nextId + 1 + jids.length }

/-- The transition relation of the system: run creation by the handler, one
scheduler tick, the synchronous part of CancelBatch, an asynchronous queue
re-check (the goroutine detached by CancelBatch), a process restart followed
by startup resume, and edits to the draft store by the draft handlers. -/
inductive Step : WorkerState → WorkerState → Prop
  | create (s : WorkerState) (draftId : Nat) (jids : List String) (now : Nat) :
      Step s (createRun s draftId jids now)
  | tick (s : WorkerState) (env : TickEnv) :
      Step s (processNextMessage s env).1
  | cancel (s : WorkerState) (batchID : Nat) (now : Nat) :
      Step s (cancelBatchSync s batchID now).1
  | recheck (s : WorkerState) (env : TickEnv) :
      Step s (checkQueue s env).1
  | restart (s : WorkerState) (env : TickEnv) :
      Step s (restartResume s env).1
  | setDrafts (s : WorkerState) (d : List MessageDraft) :
      Step s { s with drafts := d }

/-- The freshly migrated empty store with a freshly constructed worker. -/
def initState : WorkerState :=
  { runs := [], msgs := [], drafts := [], currentRun := none,
    nextSendAt := 0, nextId := 1 }

/-- Reachable worker states. -/
def Reachable (s : WorkerState) : Prop :=
  Relation.ReflTransGen Step initState s

/-! ### Generic lemmas about the repository-update and query combinators -/

theorem updateBy_map_key (key : α → Nat) (k : Nat) (g : α → α) (l : List α)
    (hg : ∀ x, key (g x) = key x) :
    (updateBy key k g l).map key = l.map key := by
  unfold updateBy
  rw [List.map_map]
  refine List.map_congr_left ?_
  intro a _
  by_cases h : key a = k <;> simp [h, hg]

theorem updateBy_eq_self (key : α → Nat) (k : Nat) (g : α → α) (l : List α)
    (h : ∀ x ∈ l, key x ≠ k) :
    updateBy key k g l = l := by
  unfold updateBy
  induction l with
  | nil => rfl
  | cons y t ih =>
    simp only [List.map_cons]
    rw [if_neg (h y (List.mem_cons_self y t))]
    rw [ih fun x hx => h x (List.mem_cons_of_mem y hx)]

theorem mem_updateBy {key : α → Nat} {k : Nat} {g : α → α} {l : List α} {y : α}
    (hy : y ∈ updateBy key k g l) :
    ∃ x ∈ l, y = if key x = k then g x else x := by
  unfold updateBy at hy
  obtain ⟨x, hx, hxy⟩ := List.mem_map.mp hy
  exact ⟨x, hx, hxy.symm⟩

/-- Updating the unique row keyed by x changes a filtered count exactly at x:
the count of the updated list plus the old contribution of x equals the old
count plus the new contribution of g x. -/
theorem length_filter_updateBy (key : α → Nat) (g : α → α) (p : α → Bool)
    (l : List α) (x : α) (hx : x ∈ l) (hnd : (l.map key).Nodup) :
    ((updateBy key (key x) g l).filter p).length + (if p x then 1 else 0)
      = (l.filter p).length + (if p (g x) then 1 else 0) := by
  induction l with
  | nil => cases hx
  | cons y t ih =>
    rw [List.map_cons, List.nodup_cons] at hnd
    rcases List.mem_cons.mp hx with hxy | hxt
    · subst hxy
      have htx : ∀ z ∈ t, key z ≠ key x := by
        intro z hz hkz
        exact hnd.1 (hkz ▸ List.mem_map_of_mem key hz)
      unfold updateBy
      simp only [List.map_cons, if_pos rfl]
      rw [show (t.map fun z => if key z = key x then g z else z) = t from ?_]
      · rw [List.filter_cons, List.filter_cons]
        by_cases hpx : p x <;> by_cases hpg : p (g x) <;>
          simp only [hpx, hpg, if_true, if_false, List.length_cons,
            Bool.false_eq_true] <;> omega
      · calc (t.map fun z => if key z = key x then g z else z)
            = t.map id := List.map_congr_left (by intro z hz; simp [htx z hz])
          _ = t := List.map_id t
    · have hky : key y ≠ key x := by
        intro hk
        exact hnd.1 (hk.symm ▸ List.mem_map_of_mem key hxt)
      unfold updateBy
      simp only [List.map_cons, if_neg hky]
      rw [List.filter_cons, List.filter_cons]
      have := ih hxt hnd.2
      unfold updateBy at this
      by_cases hpy : p y <;> simp [hpy] <;> omega

/-- A filtered count is unchanged by a map that does not affect the
predicate. -/
theorem length_filter_map_of (f : α → α) (p : α → Bool) (l : List α)
    (hp : ∀ x, p (f x) = p x) :
    ((l.map f).filter p).length = (l.filter p).length := by
  induction l with
  | nil => rfl
  | cons y t ih =>
    simp only [List.map_cons, List.filter_cons, hp y]
    by_cases h : p y <;> simp [h, ih]

/-- If the keys are distinct and every element satisfying p has the same key,
then at most one element satisfies p. -/
theorem length_filter_le_one (key : α → Nat) (p : α → Bool) (l : List α) (k : Nat)
    (hnd : (l.map key).Nodup) (hp : ∀ x ∈ l, p x → key x = k) :
    (l.filter p).length ≤ 1 := by
  induction l with
  | nil => simp
  | cons y t ih =>
    rw [List.map_cons, List.nodup_cons] at hnd
    rw [List.filter_cons]
    by_cases hpy : p y
    · have hky : key y = k := hp y (List.mem_cons_self y t) hpy
      have : t.filter p = [] := by
        rw [List.filter_eq_nil_iff]
        intro z hz hpz
        have := hp z (List.mem_cons_of_mem y hz) hpz
        exact hnd.1 ((hky.trans this.symm) ▸ List.mem_map_of_mem key hz)
      simp [hpy, this]
    · simp only [hpy, Bool.false_eq_true, if_false]
      exact ih hnd.2 fun x hx hpx => hp x (List.mem_cons_of_mem y hx) hpx

/-- Disjoint sub-counts are bounded by the count of a common superset
predicate. -/
theorem length_filter_add_le (p q r : α → Bool) (l : List α)
    (hpr : ∀ x, p x → r x) (hqr : ∀ x, q x → r x)
    (hpq : ∀ x, ¬ (p x ∧ q x)) :
    (l.filter p).length + (l.filter q).length ≤ (l.filter r).length := by
  induction l with
  | nil => simp
  | cons y t ih =>
    simp only [List.filter_cons]
    by_cases hpy : p y
    · have hry : r y := hpr y hpy
      have hqy : ¬ q y := fun hq => hpq y ⟨hpy, hq⟩
      simp [hpy, hry, hqy]
      omega
    · by_cases hqy : q y
      · have hry : r y := hqr y hqy
        simp [hpy, hqy, hry]
        omega
      · by_cases hry : r y <;> simp [hpy, hqy, hry] <;> omega

/-- The element selected by the fold-min combinator comes from the list. -/
theorem pickMin_foldl_mem (f : α → Nat) (l : List α) (acc : Option α) (m : α)
    (h : l.foldl (pickMin f) acc = some m) :
    acc = some m ∨ m ∈ l := by
  induction l generalizing acc with
  | nil => exact Or.inl h
  | cons y t ih =>
    rcases ih (pickMin f acc y) h with h1 | h1
    · cases acc with
      | none =>
        simp only [pickMin, Option.some.injEq] at h1
        exact Or.inr (h1 ▸ List.mem_cons_self y t)
      | some b =>
        simp only [pickMin, Option.some.injEq] at h1
        by_cases hlt : f y < f b
        · rw [if_pos hlt] at h1
          exact Or.inr (h1 ▸ List.mem_cons_self y t)
        · rw [if_neg hlt] at h1
          exact Or.inl (congrArg some h1)
    · exact Or.inr (List.mem_cons_of_mem y h1)

/-! ### Specifications of the store queries -/

theorem getNextPending_spec {msgs : List BatchMessage} {runId : Nat} {m : BatchMessage}
    (h : BatchMessageRepo.getNextPending msgs runId = some m) :
    m ∈ msgs ∧ m.batchRunId = runId ∧ m.status = .pending := by
  unfold BatchMessageRepo.getNextPending at h
  rcases pickMin_foldl_mem _ _ _ _ h with h1 | h1
  · cases h1
  · have := List.mem_filter.mp h1
    simp only [decide_eq_true_eq] at this
    exact ⟨this.1, this.2.1, this.2.2⟩

theorem getNextQueued_spec {runs : List BatchRun} {q : BatchRun}
    (h : BatchRunRepo.getNextQueued runs = some q) :
    q ∈ runs ∧ q.status = .queued := by
  unfold BatchRunRepo.getNextQueued at h
  rcases pickMin_foldl_mem _ _ _ _ h with h1 | h1
  · cases h1
  · have := List.mem_filter.mp h1
    simp only [decide_eq_true_eq] at this
    exact this

theorem getActive_spec {runs : List BatchRun} {a : BatchRun}
    (h : BatchRunRepo.getActive runs = some a) :
    a ∈ runs ∧ a.status = .running :=
  ⟨List.mem_of_find?_eq_some h, by
    have := List.find?_some h
    simpa using this⟩

theorem getActive_none {runs : List BatchRun}
    (h : BatchRunRepo.getActive runs = none) :
    ∀ r ∈ runs, r.status ≠ .running := by
  rw [BatchRunRepo.getActive, List.find?_eq_none] at h
  intro r hr
  simpa using h r hr

/-! ### The inductive invariant -/

/-- Number of messages of a run with a given status. -/
def countStatusMsgs (msgs : List BatchMessage) (runId : Nat) (st : MsgStatus) : Nat :=
  (msgs.filter fun m => m.batchRunId = runId ∧ m.status = st).length

/-- Number of messages belonging to a run. -/
def countRunMsgs (msgs : List BatchMessage) (runId : Nat) : Nat :=
  (msgs.filter fun m => m.batchRunId = runId).length

/-- Number of runs currently marked running in the store. -/
def runningCount (runs : List BatchRun) : Nat :=
  (runs.filter fun r => r.status = .running).length

/-- Store bookkeeping invariant: identifiers are distinct and below the
AUTOINCREMENT frontier, and every run's counters agree with its messages. -/
structure StoreInv (runs : List BatchRun) (msgs : List BatchMessage) (nid : Nat) : Prop where
  runsNodup : (runs.map BatchRun.id).Nodup
  msgsNodup : (msgs.map BatchMessage.id).Nodup
  runsLt : ∀ r ∈ runs, r.id < nid
  msgsLt : ∀ m ∈ msgs, m.id < nid
  msgRunLt : ∀ m ∈ msgs, m.batchRunId < nid
  sentEq : ∀ r ∈ runs, r.sentCount = countStatusMsgs msgs r.id .sent
  failedEq : ∀ r ∈ runs, r.failedCount = countStatusMsgs msgs r.id .failed
  totalEq : ∀ r ∈ runs, r.totalCount = countRunMsgs msgs r.id

/-- Control invariant: a run can be marked running in the store only when it
is the worker's in-memory active run. -/
def RunningCtl (s : WorkerState) : Prop :=
  ∀ r ∈ s.runs, r.status = .running →
    ∃ a, s.currentRun = some a ∧ a.batchID = r.id

/-- The full inductive invariant. -/
def Inv (s : WorkerState) : Prop :=
  StoreInv s.runs s.msgs s.nextId ∧ RunningCtl s

/-! ### Preservation of the store invariant -/

/-- Any run update that does not touch the id or the counters preserves the
store invariant; this covers Start, Complete, Cancel and Fail. -/
theorem storeInv_updateRuns {runs : List BatchRun} {msgs : List BatchMessage} {nid : Nat}
    (h : StoreInv runs msgs nid) (k : Nat) (g : BatchRun → BatchRun)
    (hid : ∀ r, (g r).id = r.id)
    (hsc : ∀ r, (g r).sentCount = r.sentCount)
    (hfc : ∀ r, (g r).failedCount = r.failedCount)
    (htc : ∀ r, (g r).totalCount = r.totalCount) :
    StoreInv (updateBy BatchRun.id k g runs) msgs nid := by
  have hconv : ∀ x : BatchRun, ∀ r : BatchRun,
      r = (if x.id = k then g x else x) →
      r.id = x.id ∧ r.sentCount = x.sentCount ∧ r.failedCount = x.failedCount ∧
        r.totalCount = x.totalCount := by
    intro x r hr
    by_cases hk : x.id = k
    · rw [if_pos hk] at hr
      exact hr ▸ ⟨hid x, hsc x, hfc x, htc x⟩
    · rw [if_neg hk] at hr
      exact hr ▸ ⟨rfl, rfl, rfl, rfl⟩
  constructor
  · rw [updateBy_map_key _ _ _ _ hid]
    exact h.runsNodup
  · exact h.msgsNodup
  · intro r hr
    obtain ⟨x, hx, hrx⟩ := mem_updateBy hr
    rw [(hconv x r hrx).1]
    exact h.runsLt x hx
  · exact h.msgsLt
  · exact h.msgRunLt
  · intro r hr
    obtain ⟨x, hx, hrx⟩ := mem_updateBy hr
    obtain ⟨h1, h2, _, _⟩ := hconv x r hrx
    rw [h1, h2]
    exact h.sentEq x hx
  · intro r hr
    obtain ⟨x, hx, hrx⟩ := mem_updateBy hr
    obtain ⟨h1, _, h3, _⟩ := hconv x r hrx
    rw [h1, h3]
    exact h.failedEq x hx
  · intro r hr
    obtain ⟨x, hx, hrx⟩ := mem_updateBy hr
    obtain ⟨h1, _, _, h4⟩ := hconv x r hrx
    rw [h1, h4]
    exact h.totalEq x hx

/-- Effect on a filtered count of the MarkSending-then-MarkSent/MarkFailed
pipeline applied to one message row. -/
theorem length_filter_double_update (msgs : List BatchMessage) (msg : BatchMessage)
    (hmem : msg ∈ msgs) (hnd : (msgs.map BatchMessage.id).Nodup)
    (g1 g2 : BatchMessage → BatchMessage)
    (hg1 : ∀ m, (g1 m).id = m.id) (p : BatchMessage → Bool) :
    ((updateBy BatchMessage.id msg.id g2
        (updateBy BatchMessage.id msg.id g1 msgs)).filter p).length
        + (if p msg then 1 else 0)
      = (msgs.filter p).length + (if p (g2 (g1 msg)) then 1 else 0) := by
  have hA := length_filter_updateBy BatchMessage.id g1 p msgs msg hmem hnd
  have hnd1 : ((updateBy BatchMessage.id msg.id g1 msgs).map BatchMessage.id).Nodup := by
    rw [updateBy_map_key _ _ _ _ hg1]
    exact hnd
  have hmem1 : g1 msg ∈ updateBy BatchMessage.id msg.id g1 msgs := by
    unfold updateBy
    have := List.mem_map_of_mem (fun x => if x.id = msg.id then g1 x else x) hmem
    simpa using this
  have hB := length_filter_updateBy BatchMessage.id g2 p
    (updateBy BatchMessage.id msg.id g1 msgs) (g1 msg) hmem1 hnd1
  rw [hg1 msg] at hB
  omega

/-! ### Preservation of the full invariant by each worker operation -/

theorem inv_startBatch {s : WorkerState} {run : BatchRun} {env : TickEnv}
    (hbase : StoreInv s.runs s.msgs s.nextId)
    (hrun : ∀ r ∈ s.runs, r.status = .running → r.id = run.id) :
    Inv (startBatch s run env).1 := by
  unfold startBatch
  cases hfind : s.drafts.find? (fun d => d.id = run.draftId) with
  | none =>
    constructor
    · exact storeInv_updateRuns hbase _ _ (fun r => rfl) (fun r => rfl)
        (fun r => rfl) (fun r => rfl)
    · intro r hr hst
      obtain ⟨x, hx, hrx⟩ := mem_updateBy hr
      by_cases hk : x.id = run.id
      · rw [if_pos hk] at hrx
        rw [hrx] at hst
        cases hst
      · rw [if_neg hk] at hrx
        exact absurd (hrun x hx (hrx ▸ hst)) hk
  | some draft =>
    constructor
    · exact storeInv_updateRuns hbase _ _ (fun r => rfl) (fun r => rfl)
        (fun r => rfl) (fun r => rfl)
    · intro r hr hst
      obtain ⟨x, hx, hrx⟩ := mem_updateBy hr
      refine ⟨{ batchID := run.id, draftContent := draft.content,
                currentJID := "", currentName := "" }, rfl, ?_⟩
      by_cases hk : x.id = run.id
      · rw [if_pos hk] at hrx
        rw [hrx, ← hk]
      · rw [if_neg hk] at hrx
        exact absurd (hrun x hx (hrx ▸ hst)) hk

/-- Dispatch to a successful send: MarkSending, MarkSent, IncrementSentCount
on a pending message of run batchID keep the counters consistent. -/
theorem storeInv_sentOutcome {runs : List BatchRun} {msgs : List BatchMessage} {nid : Nat}
    (h : StoreInv runs msgs nid) {msg : BatchMessage} (hmem : msg ∈ msgs)
    {batchID : Nat} (hrunid : msg.batchRunId = batchID) (hpend : msg.status = .pending)
    (content : String) (now : Nat) :
    StoreInv (BatchRunRepo.incSent batchID runs)
      (BatchMessageRepo.markSent msg.id content now
        (BatchMessageRepo.markSending msg.id msgs)) nid := by
  unfold BatchRunRepo.incSent BatchMessageRepo.markSent BatchMessageRepo.markSending
  set g1 : BatchMessage → BatchMessage := fun m => { m with status := .sending } with hg1def
  set g2 : BatchMessage → BatchMessage :=
    fun m => { m with status := .sent, sentContent := some content, sentAt := some now }
    with hg2def
  have hg1 : ∀ m, (g1 m).id = m.id := fun m => rfl
  have hmapkeys : ∀ l : List BatchMessage,
      ((updateBy BatchMessage.id msg.id g2 (updateBy BatchMessage.id msg.id g1 l)).map
        BatchMessage.id) = l.map BatchMessage.id := by
    intro l
    rw [updateBy_map_key BatchMessage.id msg.id g2 _ (fun m => rfl),
      updateBy_map_key BatchMessage.id msg.id g1 _ (fun m => rfl)]
  have hmemdec : ∀ m', m' ∈ updateBy BatchMessage.id msg.id g2
      (updateBy BatchMessage.id msg.id g1 msgs) →
      ∃ x ∈ msgs, m'.id = x.id ∧ m'.batchRunId = x.batchRunId := by
    intro m' hm'
    obtain ⟨y, hy, hm'y⟩ := mem_updateBy hm'
    obtain ⟨x, hx, hyx⟩ := mem_updateBy hy
    refine ⟨x, hx, ?_⟩
    have hy' : y.id = x.id ∧ y.batchRunId = x.batchRunId := by
      by_cases hk : x.id = msg.id
      · rw [if_pos hk] at hyx
        exact ⟨hyx ▸ rfl, hyx ▸ rfl⟩
      · rw [if_neg hk] at hyx
        exact ⟨hyx ▸ rfl, hyx ▸ rfl⟩
    by_cases hk : y.id = msg.id
    · rw [if_pos hk] at hm'y
      exact ⟨hm'y ▸ hy'.1, hm'y ▸ hy'.2⟩
    · rw [if_neg hk] at hm'y
      exact ⟨hm'y ▸ hy'.1, hm'y ▸ hy'.2⟩
  have hfinal : g2 (g1 msg) =
      { msg with status := .sent, sentContent := some content, sentAt := some now } := rfl
  constructor
  · rw [updateBy_map_key BatchRun.id batchID
      (fun r : BatchRun => { r with sentCount := r.sentCount + 1 }) runs (fun r => rfl)]
    exact h.runsNodup
  · rw [hmapkeys]
    exact h.msgsNodup
  · intro r hr
    obtain ⟨x, hx, hrx⟩ := mem_updateBy hr
    have : r.id = x.id := by
      by_cases hk : x.id = batchID
      · rw [if_pos hk] at hrx; exact hrx ▸ rfl
      · rw [if_neg hk] at hrx; exact hrx ▸ rfl
    rw [this]
    exact h.runsLt x hx
  · intro m' hm'
    obtain ⟨x, hx, h1, _⟩ := hmemdec m' hm'
    rw [h1]
    exact h.msgsLt x hx
  · intro m' hm'
    obtain ⟨x, hx, _, h2⟩ := hmemdec m' hm'
    rw [h2]
    exact h.msgRunLt x hx
  · intro r hr
    obtain ⟨x, hx, hrx⟩ := mem_updateBy hr
    have hrid : r.id = x.id := by
      by_cases hk : x.id = batchID
      · rw [if_pos hk] at hrx; exact hrx ▸ rfl
      · rw [if_neg hk] at hrx; exact hrx ▸ rfl
    have hd := length_filter_double_update msgs msg hmem h.msgsNodup g1 g2 hg1
      (fun m => decide (m.batchRunId = x.id ∧ m.status = .sent))
    simp only [hpend, hrunid, decide_eq_true_eq] at hd
    rw [if_neg (show ¬(batchID = x.id ∧ MsgStatus.pending = MsgStatus.sent) from
      fun hcl => by cases hcl.2)] at hd
    have hold := h.sentEq x hx
    unfold countStatusMsgs at hold ⊢
    rw [hrid]
    by_cases hk : x.id = batchID
    · rw [if_pos hk] at hrx
      have hsc : r.sentCount = x.sentCount + 1 := hrx ▸ rfl
      rw [if_pos (show batchID = x.id ∧ True from ⟨hk.symm, trivial⟩)] at hd
      omega
    · rw [if_neg hk] at hrx
      have hsc : r.sentCount = x.sentCount := hrx ▸ rfl
      rw [if_neg (show ¬(batchID = x.id ∧ True) from fun hcl => hk hcl.1.symm)] at hd
      omega
  · intro r hr
    obtain ⟨x, hx, hrx⟩ := mem_updateBy hr
    have hrid : r.id = x.id := by
      by_cases hk : x.id = batchID
      · rw [if_pos hk] at hrx; exact hrx ▸ rfl
      · rw [if_neg hk] at hrx; exact hrx ▸ rfl
    have hd := length_filter_double_update msgs msg hmem h.msgsNodup g1 g2 hg1
      (fun m => decide (m.batchRunId = x.id ∧ m.status = .failed))
    simp only [hpend, hrunid, decide_eq_true_eq] at hd
    rw [if_neg (show ¬(batchID = x.id ∧ MsgStatus.pending = MsgStatus.failed) from
      fun hcl => by cases hcl.2)] at hd
    rw [if_neg (show ¬(batchID = x.id ∧ MsgStatus.sent = MsgStatus.failed) from
      fun hcl => by cases hcl.2)] at hd
    have hfc : r.failedCount = x.failedCount := by
      by_cases hk : x.id = batchID
      · rw [if_pos hk] at hrx; exact hrx ▸ rfl
      · rw [if_neg hk] at hrx; exact hrx ▸ rfl
    have hold := h.failedEq x hx
    unfold countStatusMsgs at hold ⊢
    rw [hrid]
    omega
  · intro r hr
    obtain ⟨x, hx, hrx⟩ := mem_updateBy hr
    have hrid : r.id = x.id := by
      by_cases hk : x.id = batchID
      · rw [if_pos hk] at hrx; exact hrx ▸ rfl
      · rw [if_neg hk] at hrx; exact hrx ▸ rfl
    have hd := length_filter_double_update msgs msg hmem h.msgsNodup g1 g2 hg1
      (fun m => decide (m.batchRunId = x.id))
    simp only [hrunid, decide_eq_true_eq] at hd
    have hcancel := Nat.add_right_cancel hd
    have htc : r.totalCount = x.totalCount := by
      by_cases hk : x.id = batchID
      · rw [if_pos hk] at hrx; exact hrx ▸ rfl
      · rw [if_neg hk] at hrx; exact hrx ▸ rfl
    have hold := h.totalEq x hx
    unfold countRunMsgs at hold ⊢
    rw [hrid]
    omega

/-- Dispatch to a failed send (transport failure or placeholder failure):
MarkSending, MarkFailed, IncrementFailedCount on a pending message of run
batchID keep the counters consistent. -/
theorem storeInv_failedOutcome {runs : List BatchRun} {msgs : List BatchMessage} {nid : Nat}
    (h : StoreInv runs msgs nid) {msg : BatchMessage} (hmem : msg ∈ msgs)
    {batchID : Nat} (hrunid : msg.batchRunId = batchID) (hpend : msg.status = .pending)
    (err : String) :
    StoreInv (BatchRunRepo.incFailed batchID runs)
      (BatchMessageRepo.markFailed msg.id err
        (BatchMessageRepo.markSending msg.id msgs)) nid := by
  unfold BatchRunRepo.incFailed BatchMessageRepo.markFailed BatchMessageRepo.markSending
  set g1 : BatchMessage → BatchMessage := fun m => { m with status := .sending } with hg1def
  set g2 : BatchMessage → BatchMessage :=
    fun m => { m with status := .failed, errorMessage := some err } with hg2def
  have hg1 : ∀ m, (g1 m).id = m.id := fun m => rfl
  have hmapkeys : ∀ l : List BatchMessage,
      ((updateBy BatchMessage.id msg.id g2 (updateBy BatchMessage.id msg.id g1 l)).map
        BatchMessage.id) = l.map BatchMessage.id := by
    intro l
    rw [updateBy_map_key BatchMessage.id msg.id g2 _ (fun m => rfl),
      updateBy_map_key BatchMessage.id msg.id g1 _ (fun m => rfl)]
  have hmemdec : ∀ m', m' ∈ updateBy BatchMessage.id msg.id g2
      (updateBy BatchMessage.id msg.id g1 msgs) →
      ∃ x ∈ msgs, m'.id = x.id ∧ m'.batchRunId = x.batchRunId := by
    intro m' hm'
    obtain ⟨y, hy, hm'y⟩ := mem_updateBy hm'
    obtain ⟨x, hx, hyx⟩ := mem_updateBy hy
    refine ⟨x, hx, ?_⟩
    have hy' : y.id = x.id ∧ y.batchRunId = x.batchRunId := by
      by_cases hk : x.id = msg.id
      · rw [if_pos hk] at hyx
        exact ⟨hyx ▸ rfl, hyx ▸ rfl⟩
      · rw [if_neg hk] at hyx
        exact ⟨hyx ▸ rfl, hyx ▸ rfl⟩
    by_cases hk : y.id = msg.id
    · rw [if_pos hk] at hm'y
      exact ⟨hm'y ▸ hy'.1, hm'y ▸ hy'.2⟩
    · rw [if_neg hk] at hm'y
      exact ⟨hm'y ▸ hy'.1, hm'y ▸ hy'.2⟩
  constructor
  · rw [updateBy_map_key BatchRun.id batchID
      (fun r : BatchRun => { r with failedCount := r.failedCount + 1 }) runs (fun r => rfl)]
    exact h.runsNodup
  · rw [hmapkeys]
    exact h.msgsNodup
  · intro r hr
    obtain ⟨x, hx, hrx⟩ := mem_updateBy hr
    have : r.id = x.id := by
      by_cases hk : x.id = batchID
      · rw [if_pos hk] at hrx; exact hrx ▸ rfl
      · rw [if_neg hk] at hrx; exact hrx ▸ rfl
    rw [this]
    exact h.runsLt x hx
  · intro m' hm'
    obtain ⟨x, hx, h1, _⟩ := hmemdec m' hm'
    rw [h1]
    exact h.msgsLt x hx
  · intro m' hm'
    obtain ⟨x, hx, _, h2⟩ := hmemdec m' hm'
    rw [h2]
    exact h.msgRunLt x hx
  · intro r hr
    obtain ⟨x, hx, hrx⟩ := mem_updateBy hr
    have hrid : r.id = x.id := by
      by_cases hk : x.id = batchID
      · rw [if_pos hk] at hrx; exact hrx ▸ rfl
      · rw [if_neg hk] at hrx; exact hrx ▸ rfl
    have hd := length_filter_double_update msgs msg hmem h.msgsNodup g1 g2 hg1
      (fun m => decide (m.batchRunId = x.id ∧ m.status = .sent))
    simp only [hpend, hrunid, decide_eq_true_eq] at hd
    rw [if_neg (show ¬(batchID = x.id ∧ MsgStatus.pending = MsgStatus.sent) from
      fun hcl => by cases hcl.2)] at hd
    rw [if_neg (show ¬(batchID = x.id ∧ MsgStatus.failed = MsgStatus.sent) from
      fun hcl => by cases hcl.2)] at hd
    have hsc : r.sentCount = x.sentCount := by
      by_cases hk : x.id = batchID
      · rw [if_pos hk] at hrx; exact hrx ▸ rfl
      · rw [if_neg hk] at hrx; exact hrx ▸ rfl
    have hold := h.sentEq x hx
    unfold countStatusMsgs at hold ⊢
    rw [hrid]
    omega
  · intro r hr
    obtain ⟨x, hx, hrx⟩ := mem_updateBy hr
    have hrid : r.id = x.id := by
      by_cases hk : x.id = batchID
      · rw [if_pos hk] at hrx; exact hrx ▸ rfl
      · rw [if_neg hk] at hrx; exact hrx ▸ rfl
    have hd := length_filter_double_update msgs msg hmem h.msgsNodup g1 g2 hg1
      (fun m => decide (m.batchRunId = x.id ∧ m.status = .failed))
    simp only [hpend, hrunid, decide_eq_true_eq] at hd
    rw [if_neg (show ¬(batchID = x.id ∧ MsgStatus.pending = MsgStatus.failed) from
      fun hcl => by cases hcl.2)] at hd
    have hold := h.failedEq x hx
    unfold countStatusMsgs at hold ⊢
    rw [hrid]
    by_cases hk : x.id = batchID
    · rw [if_pos hk] at hrx
      have hfc : r.failedCount = x.failedCount + 1 := hrx ▸ rfl
      rw [if_pos (show batchID = x.id ∧ True from ⟨hk.symm, trivial⟩)] at hd
      omega
    · rw [if_neg hk] at hrx
      have hfc : r.failedCount = x.failedCount := hrx ▸ rfl
      rw [if_neg (show ¬(batchID = x.id ∧ True) from fun hcl => hk hcl.1.symm)] at hd
      omega
  · intro r hr
    obtain ⟨x, hx, hrx⟩ := mem_updateBy hr
    have hrid : r.id = x.id := by
      by_cases hk : x.id = batchID
      · rw [if_pos hk] at hrx; exact hrx ▸ rfl
      · rw [if_neg hk] at hrx; exact hrx ▸ rfl
    have hd := length_filter_double_update msgs msg hmem h.msgsNodup g1 g2 hg1
      (fun m => decide (m.batchRunId = x.id))
    simp only [hrunid, decide_eq_true_eq] at hd
    have hcancel := Nat.add_right_cancel hd
    have htc : r.totalCount = x.totalCount := by
      by_cases hk : x.id = batchID
      · rw [if_pos hk] at hrx; exact hrx ▸ rfl
      · rw [if_neg hk] at hrx; exact hrx ▸ rfl
    have hold := h.totalEq x hx
    unfold countRunMsgs at hold ⊢
    rw [hrid]
    omega

theorem inv_checkQueue {s : WorkerState} {env : TickEnv} (h : Inv s) :
    Inv (checkQueue s env).1 := by
  unfold checkQueue
  by_cases hcur : s.currentRun.isSome
  · simpa [hcur] using h
  · have hnone : s.currentRun = none := Option.not_isSome_iff_eq_none.mp hcur
    have hrun : ∀ r ∈ s.runs, r.status = .running → False := by
      intro r hr hst
      obtain ⟨a, ha, _⟩ := h.2 r hr hst
      rw [hnone] at ha
      cases ha
    cases hq : BatchRunRepo.getNextQueued s.runs with
    | none => simpa [hcur, hq] using h
    | some q =>
      simp only [hcur, Bool.false_eq_true, if_false, hq]
      exact inv_startBatch h.1 fun r hr hst => absurd (hrun r hr hst) not_false

theorem inv_completeBatch {s : WorkerState} {env : TickEnv} {batchID : Nat}
    (h : Inv s)
    (hmatch : ∀ r ∈ s.runs, r.status = .running → r.id = batchID) :
    Inv (completeBatch s batchID env).1 := by
  unfold completeBatch
  apply inv_checkQueue
  constructor
  · exact storeInv_updateRuns h.1 _ _ (fun r => rfl) (fun r => rfl)
      (fun r => rfl) (fun r => rfl)
  · intro r hr hst
    obtain ⟨x, hx, hrx⟩ := mem_updateBy hr
    by_cases hk : x.id = batchID
    · rw [if_pos hk] at hrx
      rw [hrx] at hst
      cases hst
    · rw [if_neg hk] at hrx
      exact absurd (hmatch x hx (hrx ▸ hst)) hk

theorem inv_sendMessage {s : WorkerState} {c : ActiveBatchState} {msg : BatchMessage}
    {env : TickEnv} (h : Inv s) (hcur : s.currentRun = some c)
    (hmsg : BatchMessageRepo.getNextPending s.msgs c.batchID = some msg) :
    Inv (sendMessage s c msg env).1 := by
  obtain ⟨hmem, hrunid, hpend⟩ := getNextPending_spec hmsg
  have hrun0 : ∀ r ∈ s.runs, r.status = .running → r.id = c.batchID := by
    intro r hr hst
    obtain ⟨a, ha, hab⟩ := h.2 r hr hst
    rw [hcur] at ha
    have hca := Option.some.inj ha
    rw [← hca] at hab
    exact hab.symm
  have hctl2 : ∀ (g : BatchRun → BatchRun), (∀ r, (g r).id = r.id) →
      (∀ r, (g r).status = r.status) →
      ∀ (k : Nat), ∀ r ∈ updateBy BatchRun.id k g s.runs, r.status = .running →
        c.batchID = r.id := by
    intro g hgid hgst k r hr hst
    obtain ⟨x, hx, hrx⟩ := mem_updateBy hr
    have hxid : r.id = x.id ∧ r.status = x.status := by
      by_cases hk : x.id = k
      · rw [if_pos hk] at hrx
        exact ⟨hrx ▸ hgid x, hrx ▸ hgst x⟩
      · rw [if_neg hk] at hrx
        exact ⟨hrx ▸ rfl, hrx ▸ rfl⟩
    rw [hxid.1]
    exact (hrun0 x hx (hxid.2.symm.trans hst)).symm
  unfold sendMessage
  by_cases hph : env.phFail = true
  · rw [if_pos hph]
    exact ⟨storeInv_failedOutcome h.1 hmem hrunid hpend _,
      fun r hr hst => ⟨_, rfl,
        hctl2 (fun r : BatchRun => { r with failedCount := r.failedCount + 1 })
          (fun r => rfl) (fun r => rfl) c.batchID r hr hst⟩⟩
  · rw [if_neg hph]
    by_cases hsf : env.sendFail = true
    · rw [if_pos hsf]
      exact ⟨storeInv_failedOutcome h.1 hmem hrunid hpend _,
        fun r hr hst => ⟨_, rfl,
          hctl2 (fun r : BatchRun => { r with failedCount := r.failedCount + 1 })
            (fun r => rfl) (fun r => rfl) c.batchID r hr hst⟩⟩
    · rw [if_neg hsf]
      exact ⟨storeInv_sentOutcome h.1 hmem hrunid hpend _ _,
        fun r hr hst => ⟨_, rfl,
          hctl2 (fun r : BatchRun => { r with sentCount := r.sentCount + 1 })
            (fun r => rfl) (fun r => rfl) c.batchID r hr hst⟩⟩

theorem inv_processNextMessage {s : WorkerState} {env : TickEnv} (h : Inv s) :
    Inv (processNextMessage s env).1 := by
  unfold processNextMessage
  cases hcur : s.currentRun with
  | none => exact inv_checkQueue h
  | some c =>
    simp only []
    by_cases ht : env.now < s.nextSendAt
    · rw [if_pos ht]
      exact h
    · rw [if_neg ht]
      by_cases hconn : env.connected = true
      · rw [if_neg (by simpa using hconn)]
        cases hmsg : BatchMessageRepo.getNextPending s.msgs c.batchID with
        | none =>
          apply inv_completeBatch h
          intro r hr hst
          obtain ⟨a, ha, hab⟩ := h.2 r hr hst
          rw [hcur] at ha
          have hca := Option.some.inj ha
          rw [← hca] at hab
          exact hab.symm
        | some msg => exact inv_sendMessage h hcur hmsg
      · rw [if_pos (by simpa using hconn)]
        exact h

theorem inv_cancelBatchSync {s : WorkerState} {batchID now : Nat} (h : Inv s) :
    Inv (cancelBatchSync s batchID now).1 := by
  constructor
  · exact storeInv_updateRuns h.1 batchID (BatchRunRepo.cancelOne now)
      (fun r => by unfold BatchRunRepo.cancelOne; split <;> rfl)
      (fun r => by unfold BatchRunRepo.cancelOne; split <;> rfl)
      (fun r => by unfold BatchRunRepo.cancelOne; split <;> rfl)
      (fun r => by unfold BatchRunRepo.cancelOne; split <;> rfl)
  · intro r hr hst
    obtain ⟨x, hx, hrx⟩ := mem_updateBy hr
    by_cases hk : x.id = batchID
    · rw [if_pos hk] at hrx
      unfold BatchRunRepo.cancelOne at hrx
      by_cases hq : x.status = .queued ∨ x.status = .running
      · rw [if_pos hq] at hrx
        rw [hrx] at hst
        cases hst
      · rw [if_neg hq] at hrx
        exact absurd (Or.inr (hrx ▸ hst)) hq
    · rw [if_neg hk] at hrx
      obtain ⟨a, ha, hab⟩ := h.2 x hx (hrx ▸ hst)
      refine ⟨a, ?_, by rw [hab, hrx]⟩
      show (match s.currentRun with
        | some c => if c.batchID = batchID then none else some c
        | none => none) = some a
      rw [ha]
      exact if_neg fun hcl => hk ((hab ▸ hcl : x.id = batchID))

theorem inv_createRun {s : WorkerState} {draftId : Nat} {jids : List String} {now : Nat}
    (h : Inv s) : Inv (createRun s draftId jids now) := by
  unfold createRun
  cases hfind : s.drafts.find? (fun d => d.id = draftId) with
  | none => exact h
  | some draft =>
    simp only []
    by_cases hemp : jids.isEmpty = true
    · rw [if_pos hemp]
      exact h
    · rw [if_neg hemp]
      set n := jids.length with hn
      set newMsgs := (List.range n).map (fun i =>
        ({ id := s.nextId + 1 + i, batchRunId := s.nextId, jid := jids.getD i "",
           contactName := none, status := .pending,
           templateContent := draft.content, sentContent := none,
           errorMessage := none, sentAt := none,
           createdAt := now } : BatchMessage)) with hnewdef
      have hnewmem : ∀ m : BatchMessage, m ∈ newMsgs →
          ∃ i, i < n ∧ m.id = s.nextId + 1 + i ∧ m.batchRunId = s.nextId ∧
            m.status = .pending := by
        intro m hm
        rw [hnewdef] at hm
        obtain ⟨i, hi, him⟩ := List.mem_map.mp hm
        rw [List.mem_range] at hi
        exact ⟨i, hi, him ▸ rfl, him ▸ rfl, him ▸ rfl⟩
      have hnewlen : newMsgs.length = n := by
        rw [hnewdef, List.length_map, List.length_range]
      constructor
      · constructor
        · rw [List.map_append, List.nodup_append]
          refine ⟨h.1.runsNodup, List.nodup_singleton _, ?_⟩
          intro a ha hb
          simp only [List.map_cons, List.map_nil, List.mem_singleton] at hb
          obtain ⟨r, hr, hra⟩ := List.mem_map.mp ha
          have := h.1.runsLt r hr
          rw [← hra] at hb
          omega
        · rw [List.map_append, List.nodup_append]
          refine ⟨h.1.msgsNodup, ?_, ?_⟩
          · rw [hnewdef, List.map_map]
            exact (List.nodup_range n).map (fun a b hab => by simpa using hab)
          · intro a ha hb
            obtain ⟨m, hm, hma⟩ := List.mem_map.mp ha
            obtain ⟨m2, hm2, hm2a⟩ := List.mem_map.mp hb
            obtain ⟨i, hi, hid2, _, _⟩ := hnewmem m2 hm2
            have := h.1.msgsLt m hm
            omega
        · intro r hr
          simp only [] at hr ⊢
          rcases List.mem_append.mp hr with h1 | h1
          · have := h.1.runsLt r h1
            omega
          · simp only [List.mem_singleton] at h1
            rw [h1]
            simp only []
            omega
        · intro m hm
          simp only [] at hm ⊢
          rcases List.mem_append.mp hm with h1 | h1
          · have := h.1.msgsLt m h1
            omega
          · obtain ⟨i, hi, hid2, _, _⟩ := hnewmem m h1
            omega
        · intro m hm
          simp only [] at hm ⊢
          rcases List.mem_append.mp hm with h1 | h1
          · have := h.1.msgRunLt m h1
            omega
          · obtain ⟨i, hi, _, hb2, _⟩ := hnewmem m h1
            omega
        · intro r hr
          unfold countStatusMsgs
          simp only []
          rw [List.filter_append, List.length_append]
          rcases List.mem_append.mp hr with h1 | h1
          · have hnil : (newMsgs.filter
                (fun m => decide (m.batchRunId = r.id ∧ m.status = MsgStatus.sent)))
                = [] := by
              rw [List.filter_eq_nil_iff]
              intro m hm
              obtain ⟨i, hi, _, hb2, _⟩ := hnewmem m hm
              have := h.1.runsLt r h1
              simp only [decide_eq_true_eq, not_and]
              intro hcl
              omega
            rw [hnil]
            simp only [List.length_nil, Nat.add_zero]
            have := h.1.sentEq r h1
            unfold countStatusMsgs at this
            exact this
          · simp only [List.mem_singleton] at h1
            rw [h1]
            have hnil1 : (s.msgs.filter
                (fun m => decide (m.batchRunId = s.nextId ∧ m.status = MsgStatus.sent)))
                = [] := by
              rw [List.filter_eq_nil_iff]
              intro m hm
              have := h.1.msgRunLt m hm
              simp only [decide_eq_true_eq, not_and]
              intro hcl
              omega
            have hnil2 : (newMsgs.filter
                (fun m => decide (m.batchRunId = s.nextId ∧ m.status = MsgStatus.sent)))
                = [] := by
              rw [List.filter_eq_nil_iff]
              intro m hm
              obtain ⟨i, hi, _, _, hs2⟩ := hnewmem m hm
              simp only [decide_eq_true_eq, not_and]
              intro _
              rw [hs2]
              exact fun hcl => by cases hcl
            simp only []
            rw [hnil1, hnil2]
            rfl
        · intro r hr
          unfold countStatusMsgs
          simp only []
          rw [List.filter_append, List.length_append]
          rcases List.mem_append.mp hr with h1 | h1
          · have hnil : (newMsgs.filter
                (fun m => decide (m.batchRunId = r.id ∧ m.status = MsgStatus.failed)))
                = [] := by
              rw [List.filter_eq_nil_iff]
              intro m hm
              obtain ⟨i, hi, _, hb2, _⟩ := hnewmem m hm
              have := h.1.runsLt r h1
              simp only [decide_eq_true_eq, not_and]
              intro hcl
              omega
            rw [hnil]
            simp only [List.length_nil, Nat.add_zero]
            have := h.1.failedEq r h1
            unfold countStatusMsgs at this
            exact this
          · simp only [List.mem_singleton] at h1
            rw [h1]
            have hnil1 : (s.msgs.filter
                (fun m => decide (m.batchRunId = s.nextId ∧ m.status = MsgStatus.failed)))
                = [] := by
              rw [List.filter_eq_nil_iff]
              intro m hm
              have := h.1.msgRunLt m hm
              simp only [decide_eq_true_eq, not_and]
              intro hcl
              omega
            have hnil2 : (newMsgs.filter
                (fun m => decide (m.batchRunId = s.nextId ∧ m.status = MsgStatus.failed)))
                = [] := by
              rw [List.filter_eq_nil_iff]
              intro m hm
              obtain ⟨i, hi, _, _, hs2⟩ := hnewmem m hm
              simp only [decide_eq_true_eq, not_and]
              intro _
              rw [hs2]
              exact fun hcl => by cases hcl
            simp only []
            rw [hnil1, hnil2]
            rfl
        · intro r hr
          unfold countRunMsgs
          simp only []
          rw [List.filter_append, List.length_append]
          rcases List.mem_append.mp hr with h1 | h1
          · have hnil : (newMsgs.filter (fun m => decide (m.batchRunId = r.id)))
                = [] := by
              rw [List.filter_eq_nil_iff]
              intro m hm
              obtain ⟨i, hi, _, hb2, _⟩ := hnewmem m hm
              have := h.1.runsLt r h1
              simp only [decide_eq_true_eq]
              omega
            rw [hnil]
            simp only [List.length_nil, Nat.add_zero]
            have := h.1.totalEq r h1
            unfold countRunMsgs at this
            exact this
          · simp only [List.mem_singleton] at h1
            rw [h1]
            have hnil1 : (s.msgs.filter (fun m => decide (m.batchRunId = s.nextId)))
                = [] := by
              rw [List.filter_eq_nil_iff]
              intro m hm
              have := h.1.msgRunLt m hm
              simp only [decide_eq_true_eq]
              omega
            have hall : (newMsgs.filter (fun m => decide (m.batchRunId = s.nextId)))
                = newMsgs := by
              rw [List.filter_eq_self]
              intro m hm
              obtain ⟨i, hi, _, hb2, _⟩ := hnewmem m hm
              simp only [decide_eq_true_eq]
              exact hb2
            simp only []
            rw [hnil1, hall, hnewlen]
            simp only [List.length_nil]
            omega
      · intro r hr hst
        rcases List.mem_append.mp hr with h1 | h1
        · exact h.2 r h1 hst
        · simp only [List.mem_singleton] at h1
          rw [h1] at hst
          cases hst

theorem inv_restartResume {s : WorkerState} {env : TickEnv} (h : Inv s) :
    Inv (restartResume s env).1 := by
  unfold restartResume resumeIncompleteRuns
  simp only []
  cases hact : BatchRunRepo.getActive s.runs with
  | some a =>
    have hspec := getActive_spec hact
    apply inv_startBatch (s := { s with currentRun := none, nextSendAt := 0 }) h.1
    intro r hr hst
    obtain ⟨b, hb, hbid⟩ := h.2 r hr hst
    obtain ⟨b2, hb2, hbid2⟩ := h.2 a hspec.1 hspec.2
    rw [hb] at hb2
    have := Option.some.inj hb2
    rw [← hbid, ← hbid2, this]
  | none =>
    apply inv_checkQueue (s := { s with currentRun := none, nextSendAt := 0 })
    refine ⟨h.1, ?_⟩
    intro r hr hst
    exact absurd hst (getActive_none hact r hr)

theorem inv_init : Inv initState := by
  refine ⟨⟨List.nodup_nil, List.nodup_nil, ?_, ?_, ?_, ?_, ?_, ?_⟩, ?_⟩ <;>
    intro x hx <;> cases hx

theorem inv_step {s s' : WorkerState} (h : Inv s) (hstep : Step s s') : Inv s' := by
  cases hstep with
  | create draftId jids now => exact inv_createRun h
  | tick env => exact inv_processNextMessage h
  | cancel batchID now => exact inv_cancelBatchSync h
  | recheck env => exact inv_checkQueue h
  | restart env => exact inv_restartResume h
  | setDrafts d => exact ⟨h.1, h.2⟩

theorem reachable_inv {s : WorkerState} (h : Reachable s) : Inv s := by
  unfold Reachable at h
  induction h with
  | refl => exact inv_init
  | tail hsteps hstep ih => exact inv_step ih hstep

/-! ### Concrete states used by witnesses and counterexamples -/

/-- A draft used by the example executions. -/
def exDraft : MessageDraft := { id := 1, title := "Welcome", content := "hello" }

/-- Tick oracle: connected, everything succeeds, zero random draw, time 0. -/
def exEnv0 : TickEnv :=
  { now := 0, rand := 0, connected := true, phFail := false, phErrText := "",
    resolvedContent := "hello", sendFail := false, sendErrText := "" }

/-- The same oracle at time 10000 ms (the armed deadline has elapsed). -/
def exEnv1 : TickEnv := { exEnv0 with now := 10000 }

/-- Store holding one draft. -/
def exS1 : WorkerState := { initState with drafts := [exDraft] }

/-- One run created for one recipient. -/
def exS2 : WorkerState := createRun exS1 1 ["555@sn"] 0

/-- After the first tick: the run has been picked up and is running. -/
def exS3 : WorkerState := (processNextMessage exS2 exEnv0).1

/-- After the dispatch tick: the single message was sent successfully. -/
def exS4 : WorkerState := (processNextMessage exS3 exEnv1).1

/-- A second queued run created while the first is still queued. -/
def c7S3 : WorkerState := createRun exS2 1 ["666@sn"] 1

/-- First tick on the two-run store: run 1 starts, run 3 stays queued. -/
def c7S4 : WorkerState := (processNextMessage c7S3 exEnv0).1

/-- Synchronous effect of CancelBatch on the active run 1. -/
def c7S5 : WorkerState := (cancelBatchSync c7S4 1 500).1

/-- The run record of run 1 while running. -/
def run1Running : BatchRun :=
  { id := 1, draftId := 1, status := .running, totalCount := 1, sentCount := 0,
    failedCount := 0, errorMessage := none, startedAt := some 0, completedAt := none,
    createdAt := 0 }

/-- Run 1 after its only message was sent (still running until the next tick). -/
def run1Done : BatchRun := { run1Running with sentCount := 1 }

/-- The pending message of run 1. -/
def msg2Pending : BatchMessage :=
  { id := 2, batchRunId := 1, jid := "555@sn", contactName := none, status := .pending,
    templateContent := "hello", sentContent := none, errorMessage := none, sentAt := none,
    createdAt := 0 }

/-- The same message after a successful send. -/
def msg2Sent : BatchMessage :=
  { msg2Pending with status := .sent, sentContent := some "hello", sentAt := some 10000 }

/-- The queued second run of the c7 scenario. -/
def run3Queued : BatchRun :=
  { id := 3, draftId := 1, status := .queued, totalCount := 1, sentCount := 0,
    failedCount := 0, errorMessage := none, startedAt := none, completedAt := none,
    createdAt := 1 }

/-- In-memory active state pointing at run 1. -/
def active1 : ActiveBatchState :=
  { batchID := 1, draftContent := "hello", currentJID := "", currentName := "" }

/-- In-memory active state pointing at run 3. -/
def active3 : ActiveBatchState :=
  { batchID := 3, draftContent := "hello", currentJID := "", currentName := "" }

theorem exS2_reachable : Reachable exS2 :=
  Relation.ReflTransGen.tail
    (Relation.ReflTransGen.tail Relation.ReflTransGen.refl
      (Step.setDrafts initState [exDraft]))
    (Step.create exS1 1 ["555@sn"] 0)

theorem exS3_reachable : Reachable exS3 :=
  Relation.ReflTransGen.tail exS2_reachable (Step.tick exS2 exEnv0)

theorem exS4_reachable : Reachable exS4 :=
  Relation.ReflTransGen.tail exS3_reachable (Step.tick exS3 exEnv1)

theorem c7S4_reachable : Reachable c7S4 :=
  Relation.ReflTransGen.tail
    (Relation.ReflTransGen.tail exS2_reachable (Step.create exS2 1 ["666@sn"] 1))
    (Step.tick c7S3 exEnv0)

/-! ### Claim C1 -/

/-- C1: at every reachable state of the system, the number of BatchRuns whose
status is running is 0 or 1. -/
theorem claim_C1_at_most_one_running (s : WorkerState) (h : Reachable s) :
    runningCount s.runs = 0 ∨ runningCount s.runs = 1 := by
  obtain ⟨hbase, hctl⟩ := reachable_inv h
  unfold runningCount
  cases hcur : s.currentRun with
  | none =>
    left
    have hnil : (s.runs.filter fun r => decide (r.status = RunStatus.running)) = [] := by
      rw [List.filter_eq_nil_iff]
      intro r hr hp
      simp only [decide_eq_true_eq] at hp
      obtain ⟨a, ha, _⟩ := hctl r hr hp
      rw [hcur] at ha
      cases ha
    rw [hnil]
    rfl
  | some a =>
    have hone := length_filter_le_one BatchRun.id
      (fun r => decide (r.status = RunStatus.running)) s.runs a.batchID hbase.runsNodup
      (by intro x hx hp
          simp only [decide_eq_true_eq] at hp
          obtain ⟨b, hb, hbid⟩ := hctl x hx hp
          rw [hcur] at hb
          rw [Option.some.inj hb]
          exact hbid.symm)
    omega

/-- C1 witness: the invariant evaluated at the reachable state exS3, which has
exactly one running run. -/
theorem claim_C1_witness :
    Reachable exS3 ∧ (runningCount exS3.runs = 0 ∨ runningCount exS3.runs = 1) :=
  ⟨exS3_reachable, claim_C1_at_most_one_running exS3 exS3_reachable⟩

/-! ### Claim C2 -/

/-- C2 counterexample: the biconditional direction "equality implies status
completed" fails on the code. In the reachable state exS4 the last message of
run 1 has just been sent, so sent_count + failed_count = total_count, but the
run stays running until the next tick performs the completion check. -/
theorem claim_C2_counterexample :
    ¬ (∀ s : WorkerState, Reachable s → ∀ r ∈ s.runs,
        (r.sentCount + r.failedCount = r.totalCount ↔ r.status = .completed)) := by
  intro hclaim
  have hmem : run1Done ∈ exS4.runs := by decide
  have := (hclaim exS4 exS4_reachable run1Done hmem).mp (by decide)
  exact absurd this (by decide)

/-- C2 (amended): at every reachable state, every run satisfies
sent_count + failed_count ≤ total_count. (The "equality iff completed"
refinement of the original claim is refuted by claim_C2_counterexample.) -/
theorem claim_C2_counts_le_total (s : WorkerState) (h : Reachable s) :
    ∀ r ∈ s.runs, r.sentCount + r.failedCount ≤ r.totalCount := by
  intro r hr
  have hbase := (reachable_inv h).1
  rw [hbase.sentEq r hr, hbase.failedEq r hr, hbase.totalEq r hr]
  unfold countStatusMsgs countRunMsgs
  exact length_filter_add_le _ _ _ s.msgs
    (fun m hp => by
      simp only [decide_eq_true_eq] at hp ⊢
      exact hp.1)
    (fun m hq => by
      simp only [decide_eq_true_eq] at hq ⊢
      exact hq.1)
    (fun m hpq => by
      simp only [decide_eq_true_eq] at hpq
      obtain ⟨⟨_, h1⟩, ⟨_, h2⟩⟩ := hpq
      cases h1.symm.trans h2)

/-- C2 witness: the amended bound evaluated for run 1 in the reachable
state exS4. -/
theorem claim_C2_witness :
    run1Done.sentCount + run1Done.failedCount ≤ run1Done.totalCount :=
  claim_C2_counts_le_total exS4 exS4_reachable run1Done (by decide)

/-! ### Claim C4 -/

/-- C4: every dispatch path of sendMessage (placeholder-resolution failure,
transport failure, success) re-arms the Pacer with an absolute next-send
timestamp env.now + delay, and the delay lies in the half-open interval
[10s, 15s) (milliseconds). -/
theorem claim_C4_pacer_rearmed (s : WorkerState) (c : ActiveBatchState)
    (msg : BatchMessage) (env : TickEnv) :
    (sendMessage s c msg env).1.nextSendAt = env.now + scheduleDelay env.rand ∧
    10000 ≤ scheduleDelay env.rand ∧ scheduleDelay env.rand < 15000 := by
  refine ⟨?_, ?_, ?_⟩
  · unfold sendMessage
    by_cases hph : env.phFail = true
    · rw [if_pos hph]
      rfl
    · rw [if_neg hph]
      by_cases hsf : env.sendFail = true
      · rw [if_pos hsf]
        rfl
      · rw [if_neg hsf]
        rfl
  · unfold scheduleDelay
    omega
  · unfold scheduleDelay
    have := Nat.mod_lt env.rand (show 0 < 5000 by omega)
    omega

/-! ### Claim C3 -/

/-- Allowed one-step evolution of a message status under the scheduler: either
unchanged, or starting from pending (the only dispatchable state), or the
sending-to-outcome transition. This forbids every backward transition and any
sent/failed interchange. -/
def StatusStep (a b : MsgStatus) : Prop :=
  a = b ∨ a = .pending ∨ (a = .sending ∧ (b = .sent ∨ b = .failed))

theorem msgs_startBatch (s : WorkerState) (run : BatchRun) (env : TickEnv) :
    (startBatch s run env).1.msgs = s.msgs := by
  unfold startBatch
  cases s.drafts.find? (fun d => d.id = run.draftId) <;> rfl

theorem msgs_checkQueue (s : WorkerState) (env : TickEnv) :
    (checkQueue s env).1.msgs = s.msgs := by
  unfold checkQueue
  by_cases hcur : s.currentRun.isSome
  · rw [if_pos hcur]
  · rw [if_neg hcur]
    cases BatchRunRepo.getNextQueued s.runs with
    | none => rfl
    | some q => exact msgs_startBatch s q env

theorem msgs_completeBatch (s : WorkerState) (batchID : Nat) (env : TickEnv) :
    (completeBatch s batchID env).1.msgs = s.msgs := by
  unfold completeBatch
  exact msgs_checkQueue _ env

theorem msgs_restartResume (s : WorkerState) (env : TickEnv) :
    (restartResume s env).1.msgs = s.msgs := by
  unfold restartResume resumeIncompleteRuns
  simp only []
  cases BatchRunRepo.getActive s.runs with
  | none => exact msgs_checkQueue _ env
  | some a => exact msgs_startBatch _ a env

/-- On an unchanged message store, distinct-id bookkeeping forces the
trivial status step. -/
theorem statusStep_of_same {s : WorkerState} (hInv : Inv s) :
    ∀ m ∈ s.msgs, ∀ m' ∈ s.msgs, m'.id = m.id → StatusStep m.status m'.status := by
  intro m hm m' hm' hid
  have := List.inj_on_of_nodup_map hInv.1.msgsNodup hm' hm hid
  rw [this]
  exact Or.inl rfl

/-- The MarkSending-then-outcome pipeline applied to a pending message only
produces forward status steps. -/
theorem statusStep_double {s : WorkerState} (hInv : Inv s) {msg : BatchMessage}
    (hmem : msg ∈ s.msgs) (hpend : msg.status = .pending)
    (g1 g2 : BatchMessage → BatchMessage)
    (hg1 : ∀ m, (g1 m).id = m.id) (hg2 : ∀ m, (g2 m).id = m.id) :
    ∀ m ∈ s.msgs, ∀ m' ∈ updateBy BatchMessage.id msg.id g2
        (updateBy BatchMessage.id msg.id g1 s.msgs),
      m'.id = m.id → StatusStep m.status m'.status := by
  intro m hm m' hm' hid
  obtain ⟨y, hy, hm'y⟩ := mem_updateBy hm'
  obtain ⟨x, hx, hyx⟩ := mem_updateBy hy
  have hyid : y.id = x.id := by
    by_cases hk : x.id = msg.id
    · rw [if_pos hk] at hyx
      exact hyx ▸ hg1 x
    · rw [if_neg hk] at hyx
      exact hyx ▸ rfl
  have hm'id : m'.id = y.id := by
    by_cases hk : y.id = msg.id
    · rw [if_pos hk] at hm'y
      exact hm'y ▸ hg2 y
    · rw [if_neg hk] at hm'y
      exact hm'y ▸ rfl
  have hxm : x = m := by
    apply List.inj_on_of_nodup_map hInv.1.msgsNodup hx hm
    rw [← hyid, ← hm'id, hid]
  by_cases hk : x.id = msg.id
  · have hxmsg : x = msg := List.inj_on_of_nodup_map hInv.1.msgsNodup hx hmem hk
    right
    left
    rw [← hxm, hxmsg]
    exact hpend
  · rw [if_neg hk] at hyx
    have hyk : y.id ≠ msg.id := by
      rw [hyid]
      exact hk
    rw [if_neg hyk] at hm'y
    rw [hm'y, hyx, hxm]
    exact Or.inl rfl

/-- C3: along every step of the scheduler out of a reachable state, each
message's status either stays put or moves forward along
pending, sending, then sent or failed: no backward transition and no
sent/failed interchange. A message already sent or failed is therefore never
dispatched again (dispatch selects only pending rows, see
claim_C8_startup_resume). -/
theorem claim_C3_status_forward (s s' : WorkerState) (hreach : Reachable s)
    (hstep : Step s s') :
    ∀ m ∈ s.msgs, ∀ m' ∈ s'.msgs, m'.id = m.id → StatusStep m.status m'.status := by
  have hInv := reachable_inv hreach
  cases hstep with
  | create draftId jids now =>
    intro m hm m' hm' hid
    unfold createRun at hm'
    cases hfind : s.drafts.find? (fun d => d.id = draftId) with
    | none =>
      rw [hfind] at hm'
      exact statusStep_of_same hInv m hm m' hm' hid
    | some draft =>
      rw [hfind] at hm'
      simp only [] at hm'
      by_cases hemp : jids.isEmpty = true
      · rw [if_pos hemp] at hm'
        exact statusStep_of_same hInv m hm m' hm' hid
      · rw [if_neg hemp] at hm'
        simp only [] at hm'
        rcases List.mem_append.mp hm' with h1 | h1
        · exact statusStep_of_same hInv m hm m' h1 hid
        · exfalso
          obtain ⟨i, _, him⟩ := List.mem_map.mp h1
          have hlt := hInv.1.msgsLt m hm
          have : m'.id = s.nextId + 1 + i := him ▸ rfl
          omega
  | tick env =>
    intro m hm m' hm' hid
    unfold processNextMessage at hm'
    cases hcur : s.currentRun with
    | none =>
      rw [hcur] at hm'
      rw [msgs_checkQueue s env] at hm'
      exact statusStep_of_same hInv m hm m' hm' hid
    | some c =>
      rw [hcur] at hm'
      simp only [] at hm'
      by_cases ht : env.now < s.nextSendAt
      · rw [if_pos ht] at hm'
        exact statusStep_of_same hInv m hm m' hm' hid
      · rw [if_neg ht] at hm'
        by_cases hconn : env.connected = true
        · rw [if_neg (by simpa using hconn)] at hm'
          cases hmsg : BatchMessageRepo.getNextPending s.msgs c.batchID with
          | none =>
            rw [hmsg] at hm'
            simp only [] at hm'
            rw [msgs_completeBatch s c.batchID env] at hm'
            exact statusStep_of_same hInv m hm m' hm' hid
          | some msg =>
            rw [hmsg] at hm'
            simp only [] at hm'
            obtain ⟨hmem, _, hpend⟩ := getNextPending_spec hmsg
            unfold sendMessage at hm'
            by_cases hph : env.phFail = true
            · rw [if_pos hph] at hm'
              exact statusStep_double hInv hmem hpend
                (fun x : BatchMessage => { x with status := MsgStatus.sending })
                (fun x : BatchMessage => { x with status := MsgStatus.failed, errorMessage := some ("Failed to get placeholder values: " ++ env.phErrText) })
                (fun x => rfl) (fun x => rfl) m hm m' hm' hid
            · rw [if_neg hph] at hm'
              by_cases hsf : env.sendFail = true
              · rw [if_pos hsf] at hm'
                exact statusStep_double hInv hmem hpend
                  (fun x : BatchMessage => { x with status := MsgStatus.sending })
                  (fun x : BatchMessage => { x with status := MsgStatus.failed, errorMessage := some ("Send failed: " ++ env.sendErrText) })
                  (fun x => rfl) (fun x => rfl) m hm m' hm' hid
              · rw [if_neg hsf] at hm'
                exact statusStep_double hInv hmem hpend
                  (fun x : BatchMessage => { x with status := MsgStatus.sending })
                  (fun x : BatchMessage => { x with status := MsgStatus.sent, sentContent := some env.resolvedContent, sentAt := some env.now })
                  (fun x => rfl) (fun x => rfl) m hm m' hm' hid
        · rw [if_pos (by simpa using hconn)] at hm'
          exact statusStep_of_same hInv m hm m' hm' hid
  | cancel batchID now =>
    intro m hm m' hm' hid
    exact statusStep_of_same hInv m hm m' hm' hid
  | recheck env =>
    intro m hm m' hm' hid
    rw [msgs_checkQueue s env] at hm'
    exact statusStep_of_same hInv m hm m' hm' hid
  | restart env =>
    intro m hm m' hm' hid
    rw [msgs_restartResume s env] at hm'
    exact statusStep_of_same hInv m hm m' hm' hid
  | setDrafts d =>
    intro m hm m' hm' hid
    exact statusStep_of_same hInv m hm m' hm' hid

/-- C3 witness: along the dispatch tick from exS3 to exS4 the recipient's
message makes the forward move from pending to sent. -/
theorem claim_C3_witness : StatusStep msg2Pending.status msg2Sent.status :=
  claim_C3_status_forward exS3 exS4 exS3_reachable (Step.tick exS3 exEnv1)
    msg2Pending (by decide) msg2Sent (by decide) (by decide)

/-! ### Claim C5 -/

/-- Repeated ticks, accumulating the emitted events. -/
def runTicksAcc (s : WorkerState) (envs : List TickEnv) :
    WorkerState × List ProgressEvent :=
  envs.foldl (fun acc e =>
    ((processNextMessage acc.1 e).1, acc.2 ++ (processNextMessage acc.1 e).2)) (s, [])

theorem tick_disconnected {s : WorkerState} {c : ActiveBatchState} {env : TickEnv}
    (hcur : s.currentRun = some c) (hc : env.connected = false)
    (ht : s.nextSendAt ≤ env.now) :
    processNextMessage s env = (s, [disconnectedEvent c.batchID]) := by
  unfold processNextMessage
  rw [hcur]
  simp only []
  rw [if_neg (Nat.not_lt.mpr ht)]
  rw [if_pos (by simp [hc])]

theorem runTicksAcc_disconnected_aux {s : WorkerState} {c : ActiveBatchState}
    (hcur : s.currentRun = some c) (envs : List TickEnv)
    (henvs : ∀ e ∈ envs, e.connected = false ∧ s.nextSendAt ≤ e.now) :
    ∀ acc : List ProgressEvent,
      envs.foldl (fun acc e =>
        ((processNextMessage acc.1 e).1, acc.2 ++ (processNextMessage acc.1 e).2))
        (s, acc)
      = (s, acc ++ envs.map fun _ => disconnectedEvent c.batchID) := by
  induction envs with
  | nil =>
    intro acc
    simp
  | cons e t ih =>
    intro acc
    have he := henvs e (List.mem_cons_self e t)
    have hone := tick_disconnected hcur he.1 he.2
    rw [List.foldl_cons]
    rw [show ((processNextMessage s e).1, acc ++ (processNextMessage s e).2)
        = (s, acc ++ [disconnectedEvent c.batchID]) from by rw [hone]]
    rw [ih (fun x hx => henvs x (List.mem_cons_of_mem e hx))]
    simp

/-- C5: while the run is active, the pacer deadline has elapsed and the
transport reports not-connected, every tick leaves the whole state unchanged
(the run stays running, no message leaves pending, nothing is persisted) and
emits exactly one error-kind event per tick; the same decision is therefore
retried on every subsequent tick for as long as the transport stays
disconnected. -/
theorem claim_C5_disconnected_stall (s : WorkerState) (c : ActiveBatchState)
    (envs : List TickEnv) (hcur : s.currentRun = some c)
    (henvs : ∀ e ∈ envs, e.connected = false ∧ s.nextSendAt ≤ e.now) :
    runTicksAcc s envs = (s, envs.map fun _ => disconnectedEvent c.batchID) ∧
    (disconnectedEvent c.batchID).type = "error" := by
  constructor
  · unfold runTicksAcc
    have := runTicksAcc_disconnected_aux hcur envs henvs []
    simpa using this
  · rfl

/-- The disconnected-tick oracle used by the C5 witness. -/
def envDisc : TickEnv := { exEnv1 with connected := false }

/-- C5 witness: two disconnected ticks at exS3 leave the state untouched and
emit one error event each. -/
theorem claim_C5_witness :
    runTicksAcc exS3 [envDisc, envDisc]
      = (exS3, [envDisc, envDisc].map fun _ => disconnectedEvent active1.batchID) ∧
    (disconnectedEvent active1.batchID).type = "error" :=
  claim_C5_disconnected_stall exS3 active1 [envDisc, envDisc] (by decide) (by decide)

/-! ### Claim C6 -/

/-- C6: the repository Cancel statement (i) leaves every record untouched when
the targeted run is in a terminal state, (ii) can only produce status
cancelled from a previous queued, running or already-cancelled status, and
(iii) is idempotent as a whole. -/
theorem claim_C6_cancel_guarded (runs : List BatchRun) (id now now2 : Nat) :
    ((∀ r ∈ runs, r.id = id → r.status ≠ .queued ∧ r.status ≠ .running) →
      BatchRunRepo.cancel id now runs = runs) ∧
    (∀ r ∈ BatchRunRepo.cancel id now runs, r.status = .cancelled →
      ∃ r0 ∈ runs, r0.id = r.id ∧
        (r0.status = .queued ∨ r0.status = .running ∨ r0.status = .cancelled)) ∧
    BatchRunRepo.cancel id now2 (BatchRunRepo.cancel id now runs)
      = BatchRunRepo.cancel id now runs := by
  refine ⟨?_, ?_, ?_⟩
  · intro hterm
    unfold BatchRunRepo.cancel updateBy
    have hpt : ∀ r ∈ runs, (if r.id = id then BatchRunRepo.cancelOne now r else r) = r := by
      intro r hr
      by_cases hk : r.id = id
      · rw [if_pos hk]
        unfold BatchRunRepo.cancelOne
        rw [if_neg (fun hq => by
          rcases hq with h1 | h1
          · exact (hterm r hr hk).1 h1
          · exact (hterm r hr hk).2 h1)]
      · rw [if_neg hk]
    calc (runs.map fun x => if x.id = id then BatchRunRepo.cancelOne now x else x)
        = runs.map (fun a => a) := List.map_congr_left hpt
      _ = runs := List.map_id' runs
  · intro r hr hcan
    obtain ⟨x, hx, hrx⟩ := mem_updateBy hr
    by_cases hk : x.id = id
    · rw [if_pos hk] at hrx
      unfold BatchRunRepo.cancelOne at hrx
      by_cases hq : x.status = .queued ∨ x.status = .running
      · rw [if_pos hq] at hrx
        refine ⟨x, hx, by rw [hrx], ?_⟩
        rcases hq with h1 | h1
        · exact Or.inl h1
        · exact Or.inr (Or.inl h1)
      · rw [if_neg hq] at hrx
        exact ⟨x, hx, by rw [hrx], Or.inr (Or.inr (hrx ▸ hcan))⟩
    · rw [if_neg hk] at hrx
      exact ⟨x, hx, by rw [hrx], Or.inr (Or.inr (hrx ▸ hcan))⟩
  · unfold BatchRunRepo.cancel updateBy
    rw [List.map_map]
    refine List.map_congr_left ?_
    intro r _
    simp only [Function.comp]
    unfold BatchRunRepo.cancelOne
    by_cases hk : r.id = id <;>
      by_cases hq : r.status = RunStatus.queued ∨ r.status = RunStatus.running <;>
      simp [hk, hq]

/-- C6 witness: cancelling a completed run is a record-level no-op. -/
theorem claim_C6_witness :
    BatchRunRepo.cancel 1 500
      [{ run1Done with status := RunStatus.completed, completedAt := some 20000 }]
      = [{ run1Done with status := RunStatus.completed, completedAt := some 20000 }] :=
  (claim_C6_cancel_guarded
    [{ run1Done with status := RunStatus.completed, completedAt := some 20000 }]
    1 500 900).1 (by decide)

/-! ### Claim C7 -/

/-- C7 counterexample: CancelBatch launches its queue re-check with the go
keyword, i.e. as a detached background task outside the synchronous call
chain (and blocked on the worker mutex until CancelBatch returns). In the
reachable state c7S4 run 1 is active and run 3 is queued with its draft
available; the synchronous transition to cancelled (Step.cancel, ending in
c7S5) leaves run 3 queued and no run active — whereas the re-check the claim
asserts would have started run 3, as the last conjunct shows a subsequent
detached checkQueue does. -/
theorem claim_C7_counterexample :
    Reachable c7S4 ∧ Step c7S4 c7S5 ∧ c7S5.currentRun = none ∧
    BatchRunRepo.getNextQueued c7S5.runs = some run3Queued ∧
    c7S5.drafts.find? (fun d => d.id = run3Queued.draftId) = some exDraft ∧
    (checkQueue c7S5 exEnv1).1.currentRun = some active3 :=
  ⟨c7S4_reachable, Step.cancel c7S4 1 500, by decide, by decide, by decide, by decide⟩

/-- C7 (amended): a transition to completed is followed, within the same
synchronous call chain, by a re-check of the queue — completeBatch invokes
checkQueue directly, so when a queued run (with an available draft) exists
after the completion it is already running when completeBatch returns. A
transition to cancelled only schedules the re-check as a detached goroutine
(go checkQueue), outside the cancelling call's control flow; see
claim_C7_counterexample. -/
theorem claim_C7_complete_rechecks (s : WorkerState) (batchID : Nat) (env : TickEnv)
    (q : BatchRun) (d : MessageDraft)
    (hq : BatchRunRepo.getNextQueued (BatchRunRepo.complete batchID env.now s.runs)
      = some q)
    (hd : s.drafts.find? (fun x => x.id = q.draftId) = some d) :
    (completeBatch s batchID env).1.currentRun
      = some { batchID := q.id, draftContent := d.content,
               currentJID := "", currentName := "" } ∧
    (completeBatch s batchID env).1.nextSendAt = env.now + scheduleDelay env.rand := by
  unfold completeBatch checkQueue
  simp only []
  rw [if_neg (show ¬((none : Option ActiveBatchState).isSome = true) from by simp)]
  rw [hq]
  unfold startBatch
  simp only []
  rw [hd]
  exact ⟨rfl, rfl⟩

/-- C7 witness: completing run 1 in the two-run state c7S4 synchronously
starts the queued run 3. -/
theorem claim_C7_witness :
    (completeBatch c7S4 1 exEnv1).1.currentRun = some active3 ∧
    (completeBatch c7S4 1 exEnv1).1.nextSendAt = exEnv1.now + scheduleDelay exEnv1.rand :=
  claim_C7_complete_rechecks c7S4 1 exEnv1 run3Queued exDraft (by decide) (by decide)

/-! ### Claim C8 -/

/-- C8: at startup, when the store holds a run marked running, the scheduler
resumes it: ActiveBatchState is rebuilt from the stored draft and the Pacer
is armed; when no running run exists the resume step falls through to the
queued-run check; and the next-pending query returns only pending messages of
the requested run, so already sent or failed rows are never replayed. -/
theorem claim_C8_startup_resume (s : WorkerState) (env : TickEnv) (a : BatchRun)
    (d : MessageDraft)
    (ha : BatchRunRepo.getActive s.runs = some a)
    (hd : s.drafts.find? (fun x => x.id = a.draftId) = some d) :
    (resumeIncompleteRuns s env).1.currentRun
      = some { batchID := a.id, draftContent := d.content,
               currentJID := "", currentName := "" } ∧
    (resumeIncompleteRuns s env).1.nextSendAt = env.now + scheduleDelay env.rand ∧
    (∀ s2 : WorkerState, BatchRunRepo.getActive s2.runs = none →
      resumeIncompleteRuns s2 env = checkQueue s2 env) ∧
    (∀ (msgs : List BatchMessage) (runId : Nat) (m : BatchMessage),
      BatchMessageRepo.getNextPending msgs runId = some m →
      m.status = .pending ∧ m.batchRunId = runId) := by
  refine ⟨?_, ?_, ?_, ?_⟩
  · unfold resumeIncompleteRuns
    rw [ha]
    unfold startBatch
    simp only []
    rw [hd]
    rfl
  · unfold resumeIncompleteRuns
    rw [ha]
    unfold startBatch
    simp only []
    rw [hd]
    rfl
  · intro s2 h2
    unfold resumeIncompleteRuns
    rw [h2]
  · intro msgs runId m hm
    have hspec := getNextPending_spec hm
    exact ⟨hspec.2.2, hspec.2.1⟩

/-- The store of exS3 as seen by a freshly restarted worker. -/
def c8S : WorkerState := { exS3 with currentRun := none, nextSendAt := 0 }

/-- C8 witness: resuming the store that still holds running run 1 rebuilds
the active state from the stored draft. -/
theorem claim_C8_witness :
    (resumeIncompleteRuns c8S exEnv1).1.currentRun = some active1 :=
  (claim_C8_startup_resume c8S exEnv1 run1Running exDraft (by decide) (by decide)).1

/-! ### Claim C9 -/

/-- Buffer capacity of a subscriber channel (worker.go Subscribe:
make(chan *ProgressEvent, 10)). -/
def channelCapacity : Nat := 10

/-- The per-run subscriber registry (worker.go, Worker.subscribers); a
channel is modelled by its buffer contents, oldest event first. -/
structure Broadcaster where
  subs : Nat → List (List ProgressEvent)

/-- worker.go Subscribe: create a channel with buffer capacity 10 and append
it to the run's subscriber list. -/
def subscribe (b : Broadcaster) (runID : Nat) : Broadcaster :=
  { subs := fun id2 => if id2 = runID then b.subs id2 ++ [[]] else b.subs id2 }

/-- worker.go broadcastEvent: non-blocking select send to every channel
registered for the run — append when the buffer has room, drop the event for
that subscriber when it is full. -/
def broadcastEvent (b : Broadcaster) (runID : Nat) (e : ProgressEvent) : Broadcaster :=
  { subs := fun id2 =>
      if id2 = runID then
        (b.subs id2).map fun ch =>
          if ch.length < channelCapacity then ch ++ [e] else ch
      else b.subs id2 }

/-- C9: Broadcast delivers an event to every channel registered for the run
by a non-blocking send: subscribers of other runs are untouched, Subscribe
registers a fresh empty channel of capacity 10, each registered buffer with
room receives the event at its end while each full buffer drops it (so the
operation never blocks), and buffers never exceed the capacity. -/
theorem claim_C9_broadcast (b : Broadcaster) (runID : Nat) (e : ProgressEvent) :
    (∀ id2, id2 ≠ runID → (broadcastEvent b runID e).subs id2 = b.subs id2 ∧
      (subscribe b runID).subs id2 = b.subs id2) ∧
    (subscribe b runID).subs runID = b.subs runID ++ [[]] ∧
    List.Forall₂ (fun old new =>
        (old.length < channelCapacity → new = old ++ [e]) ∧
        (¬ old.length < channelCapacity → new = old))
      (b.subs runID) ((broadcastEvent b runID e).subs runID) ∧
    ((∀ ch ∈ b.subs runID, ch.length ≤ channelCapacity) →
      ∀ ch ∈ (broadcastEvent b runID e).subs runID, ch.length ≤ channelCapacity) ∧
    channelCapacity = 10 := by
  have hsubs : (broadcastEvent b runID e).subs runID
      = (b.subs runID).map fun ch =>
          if ch.length < channelCapacity then ch ++ [e] else ch := by
    simp [broadcastEvent]
  refine ⟨?_, ?_, ?_, ?_, rfl⟩
  · intro id2 hne
    constructor
    · simp [broadcastEvent, hne]
    · simp [subscribe, hne]
  · simp [subscribe]
  · rw [hsubs]
    induction b.subs runID with
    | nil => exact List.Forall₂.nil
    | cons ch t ih =>
      refine List.Forall₂.cons ⟨?_, ?_⟩ ih
      · intro hlt
        exact if_pos hlt
      · intro hge
        exact if_neg hge
  · intro hcap ch hch
    rw [hsubs] at hch
    obtain ⟨ch0, hch0, hcheq⟩ := List.mem_map.mp hch
    by_cases hlt : ch0.length < channelCapacity
    · rw [if_pos hlt] at hcheq
      rw [← hcheq, List.length_append]
      unfold channelCapacity at hlt ⊢
      simp only [List.length_singleton]
      omega
    · rw [if_neg hlt] at hcheq
      rw [← hcheq]
      exact hcap ch0 hch0

/-- Example registry for the C9 witness: one run with an empty channel and a
full channel. -/
def bEx : Broadcaster :=
  { subs := fun _ => [[], List.replicate 10 (disconnectedEvent 1)] }

/-- C9 witness: broadcasting to run 1 leaves run 2's subscriber list
untouched. -/
theorem claim_C9_witness :
    (broadcastEvent bEx 1 (completedEvent 1)).subs 2 = bEx.subs 2 :=
  ((claim_C9_broadcast bEx 1 (completedEvent 1)).1 2 (by decide)).1

/-! ### Claim C10 -/

/-- C10: GetProgress returns an error for a batch identifier with no run in
the store; for an existing run it returns a snapshot whose
seconds-until-next-send equals the remaining time to the Pacer deadline
clamped at zero (integer seconds) when the run is running, and exactly zero
for every non-running status. -/
theorem claim_C10_getProgress (s : WorkerState) (now batchID : Nat) :
    (BatchRunRepo.getByID s.runs batchID = none →
      getProgress s now batchID = .error "batch not found") ∧
    (∀ run, BatchRunRepo.getByID s.runs batchID = some run →
      ∃ e, getProgress s now batchID = Except.ok e ∧
        e.nextSendInSeconds =
          if run.status = .running
          then (((s.nextSendAt : Int) - (now : Int)).toNat) / 1000
          else 0) := by
  constructor
  · intro h
    unfold getProgress
    rw [h]
  · intro run h
    unfold getProgress
    rw [h]
    simp only []
    refine ⟨_, rfl, ?_⟩
    simp only []
    by_cases hr : run.status = .running
    · rw [if_pos hr, if_pos hr]
      congr 1
      omega
    · rw [if_neg hr, if_neg hr]

/-- C10 witness: querying a batch identifier absent from the store yields the
"batch not found" error. -/
theorem claim_C10_witness :
    getProgress exS3 3000 99 = Except.error "batch not found" :=
  (claim_C10_getProgress exS3 3000 99).1 (by decide)

end Friday
